import Mathlib

/-!
Verification of the recovery control plane (kbc-developers/android_cwm_recovery).

This file shallowly embeds the parts of `recovery.cpp` and `screen_ui.cpp` that
the specification's testable properties talk about:

* the argument resolver `get_args` together with the bootloader-control-block
  (BCB) blob tokenizer (`strtok` on newlines) and the bounded `strlcpy`/`strlcat`
  rewrite of the control block;
* the session-finish routine `finish_recovery` with `copy_logs`/`rotate_logs`
  over a model of the `/cache/recovery` directory (an association list of file
  entries carrying contents and permission bits);
* `erase_volume` with its save/restore of `last_*`/`log` files around a cache
  reformat;
* the screen-UI menu state machine (`SelectMenu`), the blocking menu driver
  `get_menu_selection`, the progress-bar mutator `SetProgress` (floats are
  modelled exactly by rationals), and the circular text log writer `PrintV`.

C strings are modelled as Lean `String`s (the content up to the first NUL);
C `int` as `Int`; file-system calls are assumed to succeed (their failure
branches in the source only log and continue).
-/

set_option maxRecDepth 4096
set_option maxHeartbeats 1000000

namespace Recovery

/-! ### Argument resolver (`get_args`, recovery.cpp lines 315-390) -/

/-- `MAX_ARGS` from recovery.cpp line 196. -/
def MAX_ARGS : Nat := 100

/-- The bootloader control block record.  The struct layout lives in
`bootloader.h` (not part of this repository's sources); the string fields are
NUL-terminated within fixed capacities, so each field is modelled as the string
up to the first NUL. -/
structure Bootloader where
  command : String
  status : String
  recovery : String
  stage : String
deriving DecidableEq

/-- A zeroed control block (`memset(&boot, 0, sizeof(boot))`): every C string
field reads as empty. -/
def bootZero : Bootloader := ⟨"", "", "", ""⟩

/-- Modelled from the spec: the `recovery` field of the persisted control block
record is a fixed-capacity NUL-terminated buffer ("bounded length" blob,
§3/§6); the AOSP layout used with this code gives it 768 bytes.  `bootloader.h`
itself is not under the repository sources. -/
def BOOT_RECOVERY_SIZE : Nat := 768

/-- Modelled from the spec: capacity of the `command` field of the control
block (32 bytes in the AOSP layout used with this code). -/
def BOOT_COMMAND_SIZE : Nat := 32

/-- `strlcpy(dst, src, cap)`: copies at most `cap - 1` characters of `src`. -/
def strlcpyStr (src : String) (cap : Nat) : String :=
  String.mk (src.data.take (cap - 1))

/-- `strlcat(dst, src, cap)`: appends `src` to `dst`, keeping the total length
at most `cap - 1` characters (no-op beyond that, as in the C function when the
destination is already full). -/
def strlcatStr (dst src : String) (cap : Nat) : String :=
  String.mk (dst.data ++ src.data.take (cap - 1 - dst.data.length))

/-- Splits a character list at delimiter characters; the fields between
delimiters are returned in order (empty fields included).  This is the field
structure that iterated `strtok` walks over. -/
def splitChars (d : Char → Bool) : List Char → List (List Char)
  | [] => [[]]
  | c :: cs =>
    let r := splitChars d cs
    if d c then [] :: r
    else (c :: r.headI) :: r.tail

/-- The sequence of tokens produced by iterated `strtok(s, delims)`: the
nonempty fields of the delimiter split, in order. -/
def strTokens (d : Char → Bool) (s : String) : List String :=
  ((splitChars d s.data).filter (fun t => !t.isEmpty)).map String.mk

/-- Tokens of the BCB `recovery` blob under `strtok(..., "\n")`. -/
def bcbTokens (s : String) : List String :=
  strTokens (fun c => c == '\n') s

/-- The body of the BCB argument loop of `get_args` (recovery.cpp lines
337-348): reads newline tokens while `argc < MAX_ARGS`, consuming any
`--oemunlock` token (which records the unlock request and does not advance
`argc`; `HAVE_OEMLOCK` build).  The `Nat` argument is the remaining capacity
`MAX_ARGS - argc`.  Returns the retained arguments and whether `--oemunlock`
was seen. -/
def bcbLoop : List String → Nat → List String × Bool
  | _, 0 => ([], false)
  | [], _ + 1 => ([], false)
  | t :: ts, k + 1 =>
    if t = "--oemunlock" then
      let r := bcbLoop ts (k + 1)
      (r.1, true)
    else
      let r := bcbLoop ts k
      (t :: r.1, r.2)

/-- Parsing of the BCB `recovery` blob in `get_args` (lines 332-349): the first
`strtok` token must be exactly `"recovery"`, otherwise the blob contributes
nothing (`none`). -/
def bcbParse (blob : String) : Option (List String × Bool) :=
  match bcbTokens blob with
  | t :: ts => if t = "recovery" then some (bcbLoop ts (MAX_ARGS - 1)) else none
  | [] => none

/-- `strtok(buf, "\r\n")` applied once to a command-file line (recovery.cpp
line 367): the first nonempty field, if any. -/
def cmdToken (line : String) : Option String :=
  (((splitChars (fun c => c == '\r' || c == '\n') line.data).filter
      (fun t => !t.isEmpty)).map String.mk).head?

/-- The command-file argument loop of `get_args` (lines 365-373): one token per
line while `argc < MAX_ARGS`; a line with no token decrements `argc` back
(consuming no slot).  The `Nat` argument is the remaining capacity. -/
def cmdLoop : List String → Nat → List String
  | _, 0 => []
  | [], _ + 1 => []
  | l :: ls, k + 1 =>
    match cmdToken l with
    | some t => t :: cmdLoop ls k
    | none => cmdLoop ls (k + 1)

/-- Step 1 of `get_args` (lines 330-353): if no process arguments were
supplied, take arguments from the BCB blob. -/
def resolveStep1 (prog : String) (rest : List String) (recoveryBlob : String) :
    List String × Bool :=
  let args0 := prog :: rest
  if args0.length ≤ 1 then
    match bcbParse recoveryBlob with
    | some r => ("recovery" :: r.1, r.2)
    | none => (args0, false)
  else (args0, false)

/-- Step 2 of `get_args` (lines 355-378): if still at most the program name,
read the command file (if it can be opened), one token per line, keeping the
same program name. -/
def resolveStep2 (args1 : List String) (cmdFile : Option (List String)) :
    List String :=
  if args1.length ≤ 1 then
    match cmdFile with
    | some lines => args1.headI :: cmdLoop lines (MAX_ARGS - 1)
    | none => args1
  else args1

/-- The rewrite loop of `get_args` (lines 382-388): `strlcpy` of
`"recovery\n"` followed by `strlcat` of each argument and a newline, all
bounded by the `recovery` field capacity. -/
def encodeRecoveryFold (args : List String) : String :=
  args.foldl
    (fun acc a =>
      strlcatStr (strlcatStr acc a BOOT_RECOVERY_SIZE) "\n" BOOT_RECOVERY_SIZE)
    (strlcpyStr "recovery\n" BOOT_RECOVERY_SIZE)

/-- Result of `get_args`: the resolved argument vector, the control block as
rewritten, and whether a BCB `--oemunlock` token was consumed. -/
structure GetArgsResult where
  args : List String
  boot : Bootloader
  oemUnlock : Bool
deriving DecidableEq

/-- `get_args` (recovery.cpp lines 315-390).  `prog :: rest` is the process
argument vector, `cmdFile` the lines of `/cache/recovery/command` (or `none`
if the file cannot be opened).  After resolving, the control block is always
rewritten with `command = "boot-recovery"` and `recovery = "recovery\n"`
followed by the resolved arguments, each newline-terminated. -/
def get_args (prog : String) (rest : List String) (boot : Bootloader)
    (cmdFile : Option (List String)) : GetArgsResult :=
  let r1 := resolveStep1 prog rest boot.recovery
  let args2 := resolveStep2 r1.1 cmdFile
  { args := args2
    boot := { boot with
      command := strlcpyStr "boot-recovery" BOOT_COMMAND_SIZE
      recovery := encodeRecoveryFold (args2.drop 1) }
    oemUnlock := r1.2 }

/-- The ideal newline-join of an argument list: each argument followed by a
newline. -/
def joinNL : List String → String
  | [] => ""
  | a :: t => a ++ "\n" ++ joinNL t

/-! #### Small string lemmas -/

theorem strData_append (a b : String) : (a ++ b).data = a.data ++ b.data := by
  cases a; cases b; rfl

theorem strExt {a b : String} (h : a.data = b.data) : a = b := by
  cases a; cases b; cases h; rfl

@[simp] theorem mk_data (s : String) : String.mk s.data = s := by
  cases s; rfl

theorem strAppend_empty (s : String) : s ++ "" = s := by
  cases s
  apply strExt
  simp [strData_append]

theorem strlcpyStr_of_le (src : String) (cap : Nat)
    (h : src.data.length ≤ cap - 1) :
    strlcpyStr src cap = src := by
  rw [strlcpyStr, List.take_of_length_le h, mk_data]

theorem strlcatStr_of_le (dst src : String) (cap : Nat)
    (h : dst.data.length + src.data.length ≤ cap - 1) :
    strlcatStr dst src cap = dst ++ src := by
  apply strExt
  rw [strlcatStr, strData_append, mk_data]
  have hs : src.data.length ≤ cap - 1 - dst.data.length := by omega
  rw [List.take_of_length_le hs]

/-! #### Tokenizer lemmas -/

theorem splitChars_ne_nil (d : Char → Bool) (l : List Char) :
    splitChars d l ≠ [] := by
  cases l with
  | nil => simp [splitChars]
  | cons c cs =>
    simp only [splitChars]
    split <;> simp

theorem splitChars_clean_cons (d : Char → Bool) (w : List Char)
    (h : ∀ c ∈ w, d c = false) (c0 : Char) (hc0 : d c0 = true) (l : List Char) :
    splitChars d (w ++ c0 :: l) = w :: splitChars d l := by
  induction w with
  | nil => simp [splitChars, hc0]
  | cons c w ih =>
    have hc : d c = false := h c (by simp)
    have ih' := ih (fun x hx => h x (by simp [hx]))
    have hstep : splitChars d (c :: (w ++ c0 :: l)) =
        (c :: (splitChars d (w ++ c0 :: l)).headI)
          :: (splitChars d (w ++ c0 :: l)).tail := by
      simp [splitChars, hc]
    rw [List.cons_append, hstep, ih']
    simp

theorem bcbTokens_joinNL (t : List String)
    (h : ∀ a ∈ t, a ≠ "" ∧ ∀ c ∈ a.data, c ≠ '\n') :
    bcbTokens (joinNL t) = t := by
  induction t with
  | nil => decide
  | cons a t ih =>
    obtain ⟨hne, hcl⟩ := h a (by simp)
    have hdata : (joinNL (a :: t)).data = a.data ++ '\n' :: (joinNL t).data := by
      show ((a ++ "\n") ++ joinNL t).data = _
      rw [strData_append, strData_append, List.append_assoc]
      rfl
    have hclean : ∀ c ∈ a.data, (fun c => c == '\n') c = false := by
      intro c hc
      simpa using hcl c hc
    have hanil : a.data ≠ [] := by
      intro hd
      exact hne (strExt (by simp [hd]))
    rw [bcbTokens, strTokens, hdata,
      splitChars_clean_cons _ _ hclean '\n' (by decide) _]
    have hkept : (!a.data.isEmpty) = true := by
      cases hd : a.data with
      | nil => exact absurd hd hanil
      | cons x xs => simp
    simp only [List.filter_cons, hkept, if_pos, List.map_cons, mk_data]
    have := ih (fun b hb => h b (by simp [hb]))
    rw [bcbTokens, strTokens] at this
    rw [this]

theorem bcbTokens_encode (t : List String)
    (h : ∀ a ∈ t, a ≠ "" ∧ ∀ c ∈ a.data, c ≠ '\n') :
    bcbTokens ("recovery\n" ++ joinNL t) = "recovery" :: t := by
  have hdata : ("recovery\n" ++ joinNL t).data
      = "recovery".data ++ '\n' :: (joinNL t).data := by
    rw [strData_append]
    rfl
  have hclean : ∀ c ∈ "recovery".data, (fun c => c == '\n') c = false := by decide
  rw [bcbTokens, strTokens, hdata,
    splitChars_clean_cons _ _ hclean '\n' (by decide) _]
  have hkept : (!"recovery".data.isEmpty) = true := by decide
  simp only [List.filter_cons, hkept, if_pos, List.map_cons, mk_data]
  have := bcbTokens_joinNL t h
  rw [bcbTokens, strTokens] at this
  rw [this]

theorem bcbLoop_id (t : List String) (k : Nat)
    (hoem : "--oemunlock" ∉ t) (hlen : t.length ≤ k) :
    bcbLoop t k = (t, false) := by
  induction t generalizing k with
  | nil => cases k <;> rfl
  | cons a t ih =>
    cases k with
    | zero => simp at hlen
    | succ k =>
      have ha : a ≠ "--oemunlock" := by
        intro h
        exact hoem (by simp [h])
      have h1 : "--oemunlock" ∉ t := by
        intro h
        exact hoem (by simp [h])
      have h2 : t.length ≤ k := by simpa using hlen
      rw [bcbLoop]
      simp only [if_neg ha, ih k h1 h2]

theorem bcbLoop_no_oemunlock (t : List String) (k : Nat) :
    "--oemunlock" ∉ (bcbLoop t k).1 := by
  induction t generalizing k with
  | nil => cases k <;> simp [bcbLoop]
  | cons a t ih =>
    cases k with
    | zero => simp [bcbLoop]
    | succ k =>
      rw [bcbLoop]
      by_cases ha : a = "--oemunlock"
      · simpa [ha] using ih (k + 1)
      · simp only [if_neg ha]
        intro hmem
        rcases List.mem_cons.mp hmem with h | h
        · exact ha h.symm
        · exact ih k h

theorem bcbLoop_length (t : List String) (k : Nat) :
    (bcbLoop t k).1.length ≤ k := by
  induction t generalizing k with
  | nil => cases k <;> simp [bcbLoop]
  | cons a t ih =>
    cases k with
    | zero => simp [bcbLoop]
    | succ k =>
      rw [bcbLoop]
      by_cases ha : a = "--oemunlock"
      · simpa [ha] using ih (k + 1)
      · simp only [if_neg ha]
        have := ih k
        simpa using Nat.succ_le_succ this

theorem cmdLoop_length (l : List String) (k : Nat) :
    (cmdLoop l k).length ≤ k := by
  induction l generalizing k with
  | nil => cases k <;> simp [cmdLoop]
  | cons a l ih =>
    cases k with
    | zero => simp [cmdLoop]
    | succ k =>
      rw [cmdLoop]
      cases cmdToken a with
      | some t =>
        have := ih k
        simpa using Nat.succ_le_succ this
      | none => exact ih (k + 1)

theorem bcbParse_encode (t : List String)
    (hclean : ∀ a ∈ t, a ≠ "" ∧ ∀ c ∈ a.data, c ≠ '\n')
    (hoem : "--oemunlock" ∉ t) (hlen : t.length ≤ MAX_ARGS - 1) :
    bcbParse ("recovery\n" ++ joinNL t) = some (t, false) := by
  rw [bcbParse, bcbTokens_encode t hclean]
  simp [bcbLoop_id t _ hoem hlen]

theorem encodeFold_aux (t : List String) (acc : String)
    (h : acc.data.length + (joinNL t).data.length ≤ BOOT_RECOVERY_SIZE - 1) :
    t.foldl
      (fun acc a =>
        strlcatStr (strlcatStr acc a BOOT_RECOVERY_SIZE) "\n" BOOT_RECOVERY_SIZE)
      acc = acc ++ joinNL t := by
  induction t generalizing acc with
  | nil => exact (strAppend_empty acc).symm ▸ rfl
  | cons a t ih =>
    have hdata : (joinNL (a :: t)).data = a.data ++ '\n' :: (joinNL t).data := by
      show ((a ++ "\n") ++ joinNL t).data = _
      rw [strData_append, strData_append, List.append_assoc]
      rfl
    have hlen : (joinNL (a :: t)).data.length
        = a.data.length + 1 + (joinNL t).data.length := by
      simp [hdata]
      omega
    have h1 : acc.data.length + a.data.length ≤ BOOT_RECOVERY_SIZE - 1 := by
      omega
    have e1 : strlcatStr acc a BOOT_RECOVERY_SIZE = acc ++ a :=
      strlcatStr_of_le _ _ _ h1
    have hlacc : (acc ++ a).data.length = acc.data.length + a.data.length := by
      rw [strData_append, List.length_append]
    have hnl1 : ("\n" : String).data.length = 1 := rfl
    have h2 : (acc ++ a).data.length + ("\n" : String).data.length
        ≤ BOOT_RECOVERY_SIZE - 1 := by
      omega
    have e2 : strlcatStr (acc ++ a) "\n" BOOT_RECOVERY_SIZE = acc ++ a ++ "\n" :=
      strlcatStr_of_le _ _ _ h2
    have hlacc2 : (acc ++ a ++ "\n").data.length
        = acc.data.length + a.data.length + 1 := by
      rw [strData_append, strData_append, List.length_append, List.length_append,
        hnl1]
    have h3 : (acc ++ a ++ "\n").data.length + (joinNL t).data.length
        ≤ BOOT_RECOVERY_SIZE - 1 := by
      omega
    rw [List.foldl_cons, e1, e2, ih _ h3]
    apply strExt
    rw [strData_append, strData_append, strData_append, strData_append, hdata]
    simp

theorem encodeFold_eq (t : List String)
    (h : 9 + (joinNL t).data.length ≤ BOOT_RECOVERY_SIZE - 1) :
    encodeRecoveryFold t = "recovery\n" ++ joinNL t := by
  have hbase : strlcpyStr "recovery\n" BOOT_RECOVERY_SIZE = "recovery\n" :=
    strlcpyStr_of_le _ _ (by decide)
  rw [encodeRecoveryFold, hbase]
  exact encodeFold_aux t _ (by simpa using h)

theorem get_args_recovery_eq (prog : String) (rest : List String)
    (boot : Bootloader) (cf : Option (List String)) :
    (get_args prog rest boot cf).boot.recovery
      = encodeRecoveryFold ((get_args prog rest boot cf).args.drop 1) := rfl

theorem resolveStep1_empty (prog blob : String) :
    resolveStep1 prog [] blob
      = (match bcbParse blob with
          | some r => ("recovery" :: r.1, r.2)
          | none => ([prog], false)) := by
  rw [resolveStep1]
  simp

theorem bcbParse_inv (blob : String) (r : List String × Bool)
    (h : bcbParse blob = some r) :
    "--oemunlock" ∉ r.1 ∧ r.1.length ≤ MAX_ARGS - 1 := by
  rw [bcbParse] at h
  split at h
  case h_1 t ts heq =>
    by_cases hx : t = "recovery"
    · rw [if_pos hx] at h
      have hr : r = bcbLoop ts (MAX_ARGS - 1) := (Option.some.inj h).symm
      subst hr
      exact ⟨bcbLoop_no_oemunlock ts _, bcbLoop_length ts _⟩
    · rw [if_neg hx] at h
      exact absurd h (by simp)
  case h_2 => exact absurd h (by simp)

theorem c1_core (t : List String)
    (hclean : ∀ a ∈ t, a ≠ "" ∧ (∀ c ∈ a.data, c ≠ '\n') ∧ a ≠ "--oemunlock")
    (hlen : t.length ≤ MAX_ARGS - 1)
    (hfit : 9 + (joinNL t).data.length ≤ BOOT_RECOVERY_SIZE - 1) :
    bcbParse (encodeRecoveryFold t) = some (t, false) ∧
    (get_args "recovery" [] { bootZero with recovery := encodeRecoveryFold t }
      none).args.drop 1 = t := by
  have hrec : encodeRecoveryFold t = "recovery\n" ++ joinNL t := encodeFold_eq t hfit
  have hparse : bcbParse (encodeRecoveryFold t) = some (t, false) := by
    rw [hrec]
    exact bcbParse_encode t
      (fun a ha => ⟨(hclean a ha).1, (hclean a ha).2.1⟩)
      (fun hmem => ((hclean _ hmem).2.2 rfl)) hlen
  refine ⟨hparse, ?_⟩
  have h1 : resolveStep1 "recovery" [] (encodeRecoveryFold t)
      = ("recovery" :: t, false) := by
    rw [resolveStep1_empty, hparse]
  show (resolveStep2 (resolveStep1 "recovery" [] (encodeRecoveryFold t)).1
      none).drop 1 = t
  rw [h1]
  simp only [resolveStep2]
  cases t with
  | nil => simp
  | cons a t' => simp

/-! #### Claim theorems for the argument resolver -/

/-- C1 counterexample: with process arguments `["recovery", ""]` (an empty
argument), the resolver rewrites the control block to `"recovery\n\n"`, but
decoding that blob on the next boot yields zero arguments instead of the one
(empty) resolved argument, so decoding does **not** reproduce the same
argument list for every combination of inputs. -/
theorem c1_counterexample :
    (get_args "recovery" [""] bootZero none).args.drop 1 = [""] ∧
    (get_args "recovery" [""] bootZero none).boot.recovery = "recovery\n\n" ∧
    (get_args "recovery" []
        { bootZero with recovery := (get_args "recovery" [""] bootZero none).boot.recovery }
        none).args.drop 1
      ≠ (get_args "recovery" [""] bootZero none).args.drop 1 := by
  decide

/-- C1 (amended): after argument resolution the control block is always
rewritten with `command = "boot-recovery"` and `recovery = "recovery\n"`
followed by each resolved argument newline-terminated; provided every resolved
argument is nonempty, newline-free and not the reserved `--oemunlock` token,
there are at most `MAX_ARGS - 1` of them, and the encoded blob fits the
`recovery` field capacity, decoding the blob on the next boot reproduces the
same argument list in the same order; a `--oemunlock` token in the
control-block source is always consumed and never forwarded. -/
theorem c1_restart_safety (prog : String) (rest : List String) (boot : Bootloader)
    (cf : Option (List String))
    (hclean : ∀ a ∈ (get_args prog rest boot cf).args.drop 1,
      a ≠ "" ∧ (∀ c ∈ a.data, c ≠ '\n') ∧ a ≠ "--oemunlock")
    (hlen : ((get_args prog rest boot cf).args.drop 1).length ≤ MAX_ARGS - 1)
    (hfit : 9 + (joinNL ((get_args prog rest boot cf).args.drop 1)).data.length
      ≤ BOOT_RECOVERY_SIZE - 1) :
    (get_args prog rest boot cf).boot.command = "boot-recovery" ∧
    bcbParse ((get_args prog rest boot cf).boot.recovery)
      = some ((get_args prog rest boot cf).args.drop 1, false) ∧
    (get_args "recovery" []
        { bootZero with recovery := (get_args prog rest boot cf).boot.recovery }
        none).args.drop 1 = (get_args prog rest boot cf).args.drop 1 ∧
    (∀ blob r, bcbParse blob = some r → "--oemunlock" ∉ r.1) := by
  have hmain := c1_core ((get_args prog rest boot cf).args.drop 1) hclean hlen hfit
  have hcmd : (get_args prog rest boot cf).boot.command = "boot-recovery" := by
    show strlcpyStr "boot-recovery" BOOT_COMMAND_SIZE = "boot-recovery"
    exact strlcpyStr_of_le _ _ (by decide)
  refine ⟨hcmd, ?_, ?_, ?_⟩
  · rw [get_args_recovery_eq]
    exact hmain.1
  · rw [get_args_recovery_eq]
    exact hmain.2
  · intro blob r hr
    exact (bcbParse_inv blob r hr).1

/-- C1 witness: resolving `--wipe_data` satisfies the amendment's hypotheses,
and the rewritten blob decodes back to exactly `["--wipe_data"]`. -/
theorem c1_restart_safety_witness :
    ((get_args "recovery" ["--wipe_data"] bootZero none).args.drop 1
      = ["--wipe_data"]) ∧
    bcbParse ((get_args "recovery" ["--wipe_data"] bootZero none).boot.recovery)
      = some ((get_args "recovery" ["--wipe_data"] bootZero none).args.drop 1, false) :=
  ⟨by decide,
    (c1_restart_safety "recovery" ["--wipe_data"] bootZero none
      (by decide) (by decide) (by decide)).2.1⟩

/-- C9: arguments are taken from the control-block recovery blob only when its
first `strtok` token is exactly `"recovery"`; any blob whose first token
differs contributes zero arguments, and resolution behaves exactly as with an
empty blob, falling through to the command file. -/
theorem c9_bcb_gate (prog blob : String) (boot : Bootloader)
    (cf : Option (List String))
    (h : (bcbTokens blob).head? ≠ some "recovery") :
    get_args prog [] { boot with recovery := blob } cf
      = get_args prog [] { boot with recovery := "" } cf ∧
    (get_args prog [] { boot with recovery := blob } cf).args
      = prog :: (match cf with
          | some lines => cmdLoop lines (MAX_ARGS - 1)
          | none => []) := by
  have hparse : bcbParse blob = none := by
    rw [bcbParse]
    rcases hb : bcbTokens blob with _ | ⟨x, xs⟩
    · rfl
    · have hx : x ≠ "recovery" := by
        intro hx
        apply h
        rw [hb, hx]
        rfl
      simp [hx]
  have hparse0 : bcbParse "" = none := by decide
  have hstep : resolveStep1 prog [] blob = (prog :: [], false) := by
    rw [resolveStep1]
    simp [hparse]
  have hstep0 : resolveStep1 prog [] "" = (prog :: [], false) := by
    rw [resolveStep1]
    simp [hparse0]
  constructor
  · show get_args _ _ _ _ = get_args _ _ _ _
    rw [get_args, get_args]
    simp only [hstep, hstep0]
  · show (resolveStep2 (resolveStep1 prog [] blob).1 cf) = _
    rw [hstep]
    cases cf with
    | none => rfl
    | some lines => rfl

/-- C9 witness: a blob starting with `boot-recovery` is ignored and the
command file supplies the arguments. -/
theorem c9_bcb_gate_witness :
    ((bcbTokens "boot-recovery\n--wipe_data").head? ≠ some "recovery") ∧
    (get_args "recovery" []
        { bootZero with recovery := "boot-recovery\n--wipe_data" }
        (some ["--wipe_cache"])).args
      = ["recovery", "--wipe_cache"] :=
  ⟨by decide,
    (c9_bcb_gate "recovery" "boot-recovery\n--wipe_data" bootZero
      (some ["--wipe_cache"]) (by decide)).2⟩

/-- C10: when arguments come from the control-block blob or the command file
(no process arguments), the resolved argument vector never has more than
`MAX_ARGS` (100) entries, the program name included. -/
theorem c10_max_args (prog : String) (boot : Bootloader)
    (cf : Option (List String)) :
    (get_args prog [] boot cf).args.length ≤ MAX_ARGS := by
  have h1 : (resolveStep1 prog [] boot.recovery).1.length ≤ MAX_ARGS := by
    rw [resolveStep1_empty]
    cases hp : bcbParse boot.recovery with
    | none => simp [MAX_ARGS]
    | some r =>
      have hr : r.1.length ≤ MAX_ARGS - 1 := (bcbParse_inv boot.recovery r hp).2
      simp only [List.length_cons]
      have h100 : MAX_ARGS - 1 + 1 = MAX_ARGS := by decide
      omega
  show (resolveStep2 (resolveStep1 prog [] boot.recovery).1 cf).length ≤ MAX_ARGS
  simp only [resolveStep2]
  split
  · cases cf with
    | none => exact h1
    | some lines =>
      simp only [List.length_cons]
      have := cmdLoop_length lines (MAX_ARGS - 1)
      have h100 : MAX_ARGS - 1 + 1 = MAX_ARGS := by decide
      omega
  · exact h1

/-! ### The `/cache/recovery` directory model

`finish_recovery`, `copy_logs`, `rotate_logs` and `erase_volume` all operate on
files under `/cache/recovery` plus the temporary session files under `/tmp`.
The directory is modelled as an association list of entries (name, contents,
mode, uid, gid); the file-system calls the source makes on those paths
(`fopen_path`/`fwrite`, `chmod`, `chown`, `rename`, `unlink`, `readdir`) become
list operations.  Mounting, `sync`, and the open/stat failure branches (which
only log and continue) are assumed to succeed, and the temporary session log,
install log, and kernel log are taken as readable (their contents are inputs
of the model). -/

/-- One file in `/cache/recovery`: name (relative to the directory), contents,
and the `stat` permission data (`st_mode`, `st_uid`, `st_gid`) the source
saves and restores. -/
structure FileEnt where
  name : String
  data : String
  mode : Nat
  uid : Nat
  gid : Nat
deriving DecidableEq

abbrev Dir := List FileEnt

/-- First entry with the given name, as directory lookup. -/
def getEnt : Dir → String → Option FileEnt
  | [], _ => none
  | e :: es, n => if e.name = n then some e else getEnt es n

/-- Contents of the named file, if present. -/
def getData (d : Dir) (n : String) : Option String :=
  (getEnt d n).map (fun e => e.data)

/-- Mode bits of the named file, if present. -/
def getMode (d : Dir) (n : String) : Option Nat :=
  (getEnt d n).map (fun e => e.mode)

/-- Owner uid of the named file, if present. -/
def getUid (d : Dir) (n : String) : Option Nat :=
  (getEnt d n).map (fun e => e.uid)

/-- Owner gid of the named file, if present. -/
def getGid (d : Dir) (n : String) : Option Nat :=
  (getEnt d n).map (fun e => e.gid)

/-- Default mode of a file newly created through `fopen` under the cleared
umask of recovery's `main` (0666). -/
def defaultMode : Nat := 0o666

/-- Writing a file: replace the contents of the existing entry (permissions
kept), or create the file with default permissions. -/
def setData : Dir → String → String → Dir
  | [], n, v => [⟨n, v, defaultMode, 0, 0⟩]
  | e :: es, n, v =>
    if e.name = n then { e with data := v } :: es else e :: setData es n v

/-- `chmod`: update the mode bits of the entry if it exists (an absent file
makes the call fail, which the source ignores). -/
def chmodF : Dir → String → Nat → Dir
  | [], _, _ => []
  | e :: es, n, m =>
    if e.name = n then { e with mode := m } :: es else e :: chmodF es n m

/-- `chown`: update the owner of the entry if it exists. -/
def chownF : Dir → String → Nat → Nat → Dir
  | [], _, _, _ => []
  | e :: es, n, u, g =>
    if e.name = n then { e with uid := u, gid := g } :: es else e :: chownF es n u g

/-- `unlink`: remove the named entry. -/
def removeF (d : Dir) (n : String) : Dir :=
  d.filter (fun e => !(e.name == n))

/-- `rename(old, new)`: if `old` exists, it replaces `new`; if `old` does not
exist the call fails and the directory is unchanged. -/
def renameF (d : Dir) (old new : String) : Dir :=
  match getEnt d old with
  | none => d
  | some e => removeF (removeF d old) new ++ [{ e with name := new }]

/-- External inputs of a recovery session: the temporary log files under
`/tmp`, the kernel log, whether any flash-modifying operation was attempted
(`modified_flash`), the `--send_intent` argument and the locale, and the
return value the `format_volume` primitive will report. -/
structure Env where
  tmpLog : String
  tmpInstall : String
  kmsg : String
  modifiedFlash : Bool
  sendIntent : Option String
  locale : Option String
  formatRet : Int
deriving DecidableEq

/-- Mutable session state: the `/cache/recovery` directory, the bootloader
control block, the `tmplog_offset` cursor (how much of the temp log was
already appended to the cache copy) and the static `rotated` flag of
`rotate_logs`. -/
structure St where
  dir : Dir
  boot : Bootloader
  tmplogOffset : Nat
  rotated : Bool
deriving DecidableEq

/-- `KEEP_LOG_COUNT` (recovery.cpp line 126). -/
def KEEP_LOG_COUNT : Nat := 10

/-- The name `last_log` resp. `last_log.i` used by `rotate_logs`. -/
def lastLogName (i : Nat) : String :=
  if i = 0 then "last_log" else "last_log." ++ toString i

/-- The name `last_kmsg` resp. `last_kmsg.i` used by `rotate_logs`. -/
def lastKmsgName (i : Nat) : String :=
  if i = 0 then "last_kmsg" else "last_kmsg." ++ toString i

/-- One iteration of the rotation loop (recovery.cpp lines 459-474): rename
`last_log(.i)` to `last_log.(i+1)` and `last_kmsg(.i)` to `last_kmsg.(i+1)`. -/
def rotateStep (d : Dir) (i : Nat) : Dir :=
  renameF (renameF d (lastLogName i) (lastLogName (i + 1)))
    (lastKmsgName i) (lastKmsgName (i + 1))

/-- `rotate_logs(max)` (recovery.cpp lines 449-475): runs the rename loop for
`i = max-1` down to `0`, but only once per process (static `rotated` flag). -/
def rotate_logs (max : Nat) (s : St) : St :=
  if s.rotated then s
  else
    { s with rotated := true
             dir := ((List.range max).reverse).foldl rotateStep s.dir }

/-- The directory effect of the copy part of `copy_logs` (recovery.cpp lines
488-498), in source order: append the unseen part of the temp log to `log`
(`copy_log_file(..., true)` seeks to `tmplog_offset` first), rewrite
`last_log` and `last_install` from the temp files, write the kernel log to
`last_kmsg`, then the `chmod`/`chown` fixups. -/
def copyDir (e : Env) (off : Nat) (d : Dir) : Dir :=
  chmodF (chmodF (chownF (chmodF (chownF (chmodF
    (setData (setData (setData
      (setData d "log"
        (((getData d "log").getD "") ++ String.mk (e.tmpLog.data.drop off)))
      "last_log" e.tmpLog) "last_install" e.tmpInstall) "last_kmsg" e.kmsg)
    "log" 0o600) "log" 1000 1000) "last_kmsg" 0o600) "last_kmsg" 1000 1000)
    "last_log" 0o640) "last_install" 0o644

/-- `copy_logs` (recovery.cpp lines 477-500): a no-op unless `modified_flash`;
otherwise rotates, applies `copyDir`, and advances `tmplog_offset` to the end
of the temp log (`ftell` after copying; if the offset was already past the
end, `fread` reads nothing and it stays). -/
def copy_logs (e : Env) (s : St) : St :=
  if e.modifiedFlash = false then s
  else
    let s1 := rotate_logs KEEP_LOG_COUNT s
    { s1 with
      dir := copyDir e s1.tmplogOffset s1.dir
      tmplogOffset := Nat.max s1.tmplogOffset e.tmpLog.data.length }

/-- Writing an optional value to a file: `finish_recovery` writes the intent
and the locale only when they are non-null. -/
def writeOpt (o : Option String) (n : String) (d : Dir) : Dir :=
  match o with
  | some v => setData d n v
  | none => d

/-- `finish_recovery(send_intent)` (recovery.cpp lines 506-546): write the
intent file if requested, save the locale, copy the logs, zero the control
block, and remove the command file. -/
def finish_recovery (e : Env) (s : St) : St :=
  let d1 := writeOpt e.locale "last_locale" (writeOpt e.sendIntent "intent" s.dir)
  let s2 := copy_logs e { s with dir := d1 }
  { s2 with boot := bootZero, dir := removeF s2.dir "command" }

/-- `strncmp(name, "last_", 5) == 0 || strcmp(name, "log") == 0`
(recovery.cpp line 580): the saved/restored log files of `erase_volume`. -/
def isLogName (n : String) : Bool :=
  "last_".data.isPrefixOf n.data || n == "log"

/-- The 512 KiB size cap applied to saved logs (recovery.cpp lines 586-588). -/
def LOG_TRUNC_CAP : Nat := 524288

/-- File contents truncated to the 512 KiB cap. -/
def truncData (s : String) : String :=
  String.mk (s.data.take LOG_TRUNC_CAP)

/-- The save loop of `erase_volume` (lines 579-599): every `last_*`/`log`
entry of the directory is loaded (contents truncated to the cap) and pushed
onto the head of the saved list. -/
def saveLogs (d : Dir) : List FileEnt :=
  d.foldl
    (fun acc ent =>
      if isLogName ent.name then { ent with data := truncData ent.data } :: acc
      else acc)
    []

/-- The restore loop of `erase_volume` (lines 616-629): each saved entry is
written back (creating the file) and given its saved mode and owner. -/
def restoreSaved : List FileEnt → Dir → Dir
  | [], d => d
  | e :: es, d =>
    restoreSaved es
      (chownF (chmodF (setData d e.name e.data) e.name e.mode) e.name e.uid e.gid)

/-- `erase_volume(volume, force)` (recovery.cpp lines 555-642).  For a
non-forced cache erase the `last_*`/`log` files are saved first; the format
clears the cache directory; afterwards — only in the non-forced cache case —
the saved files are restored, `tmplog_offset` is reset to 0 and `copy_logs`
runs again.  Returns the new state and `format_volume(...) == 0`. -/
def erase_volume (e : Env) (volume : String) (force : Bool) (s : St) :
    St × Bool :=
  let is_cache := volume == "/cache"
  let saved := if !force && is_cache then saveLogs s.dir else []
  let dirAfterFormat := if is_cache then ([] : Dir) else s.dir
  let s1 := { s with dir := dirAfterFormat }
  let s2 :=
    if !force && is_cache then
      copy_logs e { s1 with dir := restoreSaved saved s1.dir, tmplogOffset := 0 }
    else s1
  (s2, e.formatRet == 0)

/-! #### Directory operation lemmas -/

@[simp] theorem getEnt_nil (x : String) : getEnt [] x = none := rfl

@[simp] theorem getEnt_cons (e : FileEnt) (es : Dir) (x : String) :
    getEnt (e :: es) x = if e.name = x then some e else getEnt es x := rfl

@[simp] theorem getData_nil (x : String) : getData [] x = none := rfl

@[simp] theorem getData_cons (e : FileEnt) (es : Dir) (x : String) :
    getData (e :: es) x = if e.name = x then some e.data else getData es x := by
  rw [getData, getEnt_cons]
  split <;> rfl

@[simp] theorem getMode_nil (x : String) : getMode [] x = none := rfl

@[simp] theorem getMode_cons (e : FileEnt) (es : Dir) (x : String) :
    getMode (e :: es) x = if e.name = x then some e.mode else getMode es x := by
  rw [getMode, getEnt_cons]
  split <;> rfl

@[simp] theorem getUid_nil (x : String) : getUid [] x = none := rfl

@[simp] theorem getUid_cons (e : FileEnt) (es : Dir) (x : String) :
    getUid (e :: es) x = if e.name = x then some e.uid else getUid es x := by
  rw [getUid, getEnt_cons]
  split <;> rfl

@[simp] theorem getGid_nil (x : String) : getGid [] x = none := rfl

@[simp] theorem getGid_cons (e : FileEnt) (es : Dir) (x : String) :
    getGid (e :: es) x = if e.name = x then some e.gid else getGid es x := by
  rw [getGid, getEnt_cons]
  split <;> rfl

theorem removeF_nil (n : String) : removeF [] n = [] := rfl

theorem removeF_cons (e : FileEnt) (es : Dir) (n : String) :
    removeF (e :: es) n
      = if e.name = n then removeF es n else e :: removeF es n := by
  rw [removeF, List.filter_cons]
  by_cases h : e.name = n
  · simp [h, removeF]
  · simp [h, removeF]

theorem getData_setData_self (d : Dir) (n v : String) :
    getData (setData d n v) n = some v := by
  induction d with
  | nil => simp [setData]
  | cons e es ih =>
    by_cases he : e.name = n
    · subst he
      simp [setData]
    · simp [setData, he, ih]

theorem getEnt_setData_ne (d : Dir) (n v x : String) (h : x ≠ n) :
    getEnt (setData d n v) x = getEnt d x := by
  have hnx : ¬ n = x := fun hh => h hh.symm
  induction d with
  | nil => simp [setData, hnx]
  | cons e es ih =>
    by_cases he : e.name = n
    · subst he
      simp [setData, hnx]
    · simp [setData, he, ih]

theorem setData_noop (d : Dir) (n v : String) (h : getData d n = some v) :
    setData d n v = d := by
  induction d with
  | nil => simp at h
  | cons e es ih =>
    by_cases he : e.name = n
    · subst he
      simp at h
      rw [setData]
      simp [← h]
    · rw [setData]
      simp only [if_neg he]
      simp [he] at h
      rw [ih h]

theorem getMode_setData_isSome (d : Dir) (n v : String) :
    (getMode (setData d n v) n).isSome := by
  induction d with
  | nil => simp [setData]
  | cons e es ih =>
    by_cases he : e.name = n
    · subst he
      simp [setData]
    · simpa [setData, he] using ih

theorem getEnt_chmodF_ne (d : Dir) (n : String) (m : Nat) (x : String)
    (h : x ≠ n) : getEnt (chmodF d n m) x = getEnt d x := by
  have hnx : ¬ n = x := fun hh => h hh.symm
  induction d with
  | nil => simp [chmodF]
  | cons e es ih =>
    by_cases he : e.name = n
    · subst he
      simp [chmodF, hnx]
    · simp [chmodF, he, ih]

theorem getData_chmodF (d : Dir) (n : String) (m : Nat) (x : String) :
    getData (chmodF d n m) x = getData d x := by
  induction d with
  | nil => simp [chmodF]
  | cons e es ih =>
    by_cases he : e.name = n
    · subst he
      by_cases hex : e.name = x <;> simp [chmodF, hex]
    · by_cases hex : e.name = x
      · subst hex
        simp [chmodF, he, ih]
      · simp [chmodF, he, hex, ih]

theorem getUid_chmodF (d : Dir) (n : String) (m : Nat) (x : String) :
    getUid (chmodF d n m) x = getUid d x := by
  induction d with
  | nil => simp [chmodF]
  | cons e es ih =>
    by_cases he : e.name = n
    · subst he
      by_cases hex : e.name = x <;> simp [chmodF, hex]
    · by_cases hex : e.name = x
      · subst hex
        simp [chmodF, he, ih]
      · simp [chmodF, he, hex, ih]

theorem getGid_chmodF (d : Dir) (n : String) (m : Nat) (x : String) :
    getGid (chmodF d n m) x = getGid d x := by
  induction d with
  | nil => simp [chmodF]
  | cons e es ih =>
    by_cases he : e.name = n
    · subst he
      by_cases hex : e.name = x <;> simp [chmodF, hex]
    · by_cases hex : e.name = x
      · subst hex
        simp [chmodF, he, ih]
      · simp [chmodF, he, hex, ih]

theorem getMode_chmodF_self (d : Dir) (n : String) (m : Nat) :
    getMode (chmodF d n m) n = (getMode d n).map (fun _ => m) := by
  induction d with
  | nil => simp [chmodF]
  | cons e es ih =>
    by_cases he : e.name = n
    · subst he
      simp [chmodF]
    · simp [chmodF, he, ih]

theorem chmodF_noop (d : Dir) (n : String) (m : Nat)
    (h : getMode d n = some m) : chmodF d n m = d := by
  induction d with
  | nil => simp at h
  | cons e es ih =>
    by_cases he : e.name = n
    · subst he
      simp at h
      rw [chmodF]
      simp [← h]
    · rw [chmodF]
      simp only [if_neg he]
      simp [he] at h
      rw [ih h]

theorem getEnt_chownF_ne (d : Dir) (n : String) (u g : Nat) (x : String)
    (h : x ≠ n) : getEnt (chownF d n u g) x = getEnt d x := by
  have hnx : ¬ n = x := fun hh => h hh.symm
  induction d with
  | nil => simp [chownF]
  | cons e es ih =>
    by_cases he : e.name = n
    · subst he
      simp [chownF, hnx]
    · simp [chownF, he, ih]

theorem getData_chownF (d : Dir) (n : String) (u g : Nat) (x : String) :
    getData (chownF d n u g) x = getData d x := by
  induction d with
  | nil => simp [chownF]
  | cons e es ih =>
    by_cases he : e.name = n
    · subst he
      by_cases hex : e.name = x <;> simp [chownF, hex]
    · by_cases hex : e.name = x
      · subst hex
        simp [chownF, he, ih]
      · simp [chownF, he, hex, ih]

theorem getMode_chownF (d : Dir) (n : String) (u g : Nat) (x : String) :
    getMode (chownF d n u g) x = getMode d x := by
  induction d with
  | nil => simp [chownF]
  | cons e es ih =>
    by_cases he : e.name = n
    · subst he
      by_cases hex : e.name = x <;> simp [chownF, hex]
    · by_cases hex : e.name = x
      · subst hex
        simp [chownF, he, ih]
      · simp [chownF, he, hex, ih]

theorem getUid_chownF_self (d : Dir) (n : String) (u g : Nat) :
    getUid (chownF d n u g) n = (getUid d n).map (fun _ => u) := by
  induction d with
  | nil => simp [chownF]
  | cons e es ih =>
    by_cases he : e.name = n
    · subst he
      simp [chownF]
    · simp [chownF, he, ih]

theorem getGid_chownF_self (d : Dir) (n : String) (u g : Nat) :
    getGid (chownF d n u g) n = (getGid d n).map (fun _ => g) := by
  induction d with
  | nil => simp [chownF]
  | cons e es ih =>
    by_cases he : e.name = n
    · subst he
      simp [chownF]
    · simp [chownF, he, ih]

theorem chownF_noop (d : Dir) (n : String) (u g : Nat)
    (hu : getUid d n = some u) (hg : getGid d n = some g) :
    chownF d n u g = d := by
  induction d with
  | nil => simp at hu
  | cons e es ih =>
    by_cases he : e.name = n
    · subst he
      simp at hu hg
      rw [chownF]
      simp [← hu, ← hg]
    · rw [chownF]
      simp only [if_neg he]
      simp [he] at hu hg
      rw [ih hu hg]

theorem getEnt_removeF_self (d : Dir) (n : String) :
    getEnt (removeF d n) n = none := by
  induction d with
  | nil => simp [removeF_nil]
  | cons e es ih =>
    rw [removeF_cons]
    by_cases he : e.name = n
    · simp [he, ih]
    · simp [he, ih]

theorem getEnt_removeF_ne (d : Dir) (n x : String) (h : x ≠ n) :
    getEnt (removeF d n) x = getEnt d x := by
  induction d with
  | nil => simp [removeF_nil]
  | cons e es ih =>
    rw [removeF_cons]
    by_cases he : e.name = n
    · subst he
      have : ¬ e.name = x := fun hh => h hh.symm
      simp [this, ih]
    · simp [he, ih]

theorem removeF_noop (d : Dir) (n : String) (h : getEnt d n = none) :
    removeF d n = d := by
  induction d with
  | nil => rfl
  | cons e es ih =>
    rw [removeF_cons]
    by_cases he : e.name = n
    · simp [he] at h
    · simp [he] at h
      simp [he, ih h]

theorem removeF_idem (d : Dir) (n : String) :
    removeF (removeF d n) n = removeF d n :=
  removeF_noop _ _ (getEnt_removeF_self d n)

theorem getEnt_append_of_none (d1 d2 : Dir) (x : String)
    (h : getEnt d1 x = none) : getEnt (d1 ++ d2) x = getEnt d2 x := by
  induction d1 with
  | nil => rfl
  | cons e es ih =>
    by_cases he : e.name = x
    · simp [he] at h
    · simp [he] at h ⊢
      exact ih h

theorem getEnt_append_of_some (d1 d2 : Dir) (x : String) (e : FileEnt)
    (h : getEnt d1 x = some e) : getEnt (d1 ++ d2) x = some e := by
  induction d1 with
  | nil => simp at h
  | cons f fs ih =>
    by_cases hf : f.name = x
    · simp [hf] at h ⊢
      exact h
    · simp [hf] at h ⊢
      exact ih h

theorem getEnt_renameF_ne (d : Dir) (old nw x : String)
    (h1 : x ≠ old) (h2 : x ≠ nw) :
    getEnt (renameF d old nw) x = getEnt d x := by
  rw [renameF]
  cases ho : getEnt d old with
  | none => rfl
  | some e =>
    have hr : getEnt (removeF (removeF d old) nw) x = getEnt d x := by
      rw [getEnt_removeF_ne _ _ _ h2, getEnt_removeF_ne _ _ _ h1]
    cases hx : getEnt d x with
    | none =>
      rw [getEnt_append_of_none]
      · have : ¬ ({ e with name := nw } : FileEnt).name = x :=
          fun hh => h2 (by simpa using hh.symm)
        simp [this]
      · rw [hr, hx]
    | some y =>
      rw [getEnt_append_of_some _ _ _ y]
      rw [hr, hx]

/-! #### Projection wrappers -/

theorem getData_setData_ne (d : Dir) (n v x : String) (h : x ≠ n) :
    getData (setData d n v) x = getData d x := by
  simp only [getData, getEnt_setData_ne d n v x h]

theorem getMode_setData_ne (d : Dir) (n v x : String) (h : x ≠ n) :
    getMode (setData d n v) x = getMode d x := by
  simp only [getMode, getEnt_setData_ne d n v x h]

theorem getUid_setData_ne (d : Dir) (n v x : String) (h : x ≠ n) :
    getUid (setData d n v) x = getUid d x := by
  simp only [getUid, getEnt_setData_ne d n v x h]

theorem getGid_setData_ne (d : Dir) (n v x : String) (h : x ≠ n) :
    getGid (setData d n v) x = getGid d x := by
  simp only [getGid, getEnt_setData_ne d n v x h]

theorem getUid_setData_isSome (d : Dir) (n v : String) :
    (getUid (setData d n v) n).isSome := by
  induction d with
  | nil => simp [setData]
  | cons e es ih =>
    by_cases he : e.name = n
    · subst he
      simp [setData]
    · simpa [setData, he] using ih

theorem getGid_setData_isSome (d : Dir) (n v : String) :
    (getGid (setData d n v) n).isSome := by
  induction d with
  | nil => simp [setData]
  | cons e es ih =>
    by_cases he : e.name = n
    · subst he
      simp [setData]
    · simpa [setData, he] using ih

theorem getMode_chmodF_ne (d : Dir) (n : String) (m : Nat) (x : String)
    (h : x ≠ n) : getMode (chmodF d n m) x = getMode d x := by
  simp only [getMode, getEnt_chmodF_ne d n m x h]

theorem getUid_chownF_ne (d : Dir) (n : String) (u g : Nat) (x : String)
    (h : x ≠ n) : getUid (chownF d n u g) x = getUid d x := by
  simp only [getUid, getEnt_chownF_ne d n u g x h]

theorem getGid_chownF_ne (d : Dir) (n : String) (u g : Nat) (x : String)
    (h : x ≠ n) : getGid (chownF d n u g) x = getGid d x := by
  simp only [getGid, getEnt_chownF_ne d n u g x h]

theorem getData_removeF_ne (d : Dir) (n x : String) (h : x ≠ n) :
    getData (removeF d n) x = getData d x := by
  simp only [getData, getEnt_removeF_ne d n x h]

theorem getMode_removeF_ne (d : Dir) (n x : String) (h : x ≠ n) :
    getMode (removeF d n) x = getMode d x := by
  simp only [getMode, getEnt_removeF_ne d n x h]

theorem getUid_removeF_ne (d : Dir) (n x : String) (h : x ≠ n) :
    getUid (removeF d n) x = getUid d x := by
  simp only [getUid, getEnt_removeF_ne d n x h]

theorem getGid_removeF_ne (d : Dir) (n x : String) (h : x ≠ n) :
    getGid (removeF d n) x = getGid d x := by
  simp only [getGid, getEnt_removeF_ne d n x h]

/-! #### `writeOpt` lemmas -/

theorem getEnt_writeOpt_ne (o : Option String) (n : String) (d : Dir)
    (x : String) (h : x ≠ n) : getEnt (writeOpt o n d) x = getEnt d x := by
  cases o with
  | none => rfl
  | some v => exact getEnt_setData_ne d n v x h

theorem getData_writeOpt_ne (o : Option String) (n : String) (d : Dir)
    (x : String) (h : x ≠ n) : getData (writeOpt o n d) x = getData d x := by
  simp only [getData, getEnt_writeOpt_ne o n d x h]

theorem writeOpt_noop (o : Option String) (n : String) (d : Dir)
    (h : ∀ v, o = some v → getData d n = some v) : writeOpt o n d = d := by
  cases o with
  | none => rfl
  | some v => exact setData_noop d n v (h v rfl)

/-! #### `rotate_logs` lemmas -/

theorem getEnt_rotateStep_ne (d : Dir) (i : Nat) (x : String)
    (h1 : x ≠ lastLogName i) (h2 : x ≠ lastLogName (i + 1))
    (h3 : x ≠ lastKmsgName i) (h4 : x ≠ lastKmsgName (i + 1)) :
    getEnt (rotateStep d i) x = getEnt d x := by
  rw [rotateStep, getEnt_renameF_ne _ _ _ _ h3 h4, getEnt_renameF_ne _ _ _ _ h1 h2]

theorem getEnt_rotateFold_ne (l : List Nat) (d : Dir) (x : String)
    (h : ∀ i ∈ l, x ≠ lastLogName i ∧ x ≠ lastLogName (i + 1)
      ∧ x ≠ lastKmsgName i ∧ x ≠ lastKmsgName (i + 1)) :
    getEnt (l.foldl rotateStep d) x = getEnt d x := by
  induction l generalizing d with
  | nil => rfl
  | cons i l ih =>
    rw [List.foldl_cons, ih _ (fun j hj => h j (by simp [hj]))]
    obtain ⟨a, b, c, e⟩ := h i (by simp)
    exact getEnt_rotateStep_ne d i x a b c e

/-- The name-avoidance condition under which `copy_logs` leaves a file
untouched: distinct from the four copied names and from every rotated
archive name. -/
def awayFromCopy (x : String) : Prop :=
  x ≠ "log" ∧ x ≠ "last_log" ∧ x ≠ "last_install" ∧ x ≠ "last_kmsg" ∧
  ∀ i ∈ List.range KEEP_LOG_COUNT,
    x ≠ lastLogName i ∧ x ≠ lastLogName (i + 1)
      ∧ x ≠ lastKmsgName i ∧ x ≠ lastKmsgName (i + 1)

instance (x : String) : Decidable (awayFromCopy x) := by
  unfold awayFromCopy
  infer_instance

theorem getEnt_rotate_logs_ne (max : Nat) (s : St) (x : String)
    (h : ∀ i ∈ List.range max, x ≠ lastLogName i ∧ x ≠ lastLogName (i + 1)
      ∧ x ≠ lastKmsgName i ∧ x ≠ lastKmsgName (i + 1)) :
    getEnt (rotate_logs max s).dir x = getEnt s.dir x := by
  rw [rotate_logs]
  split
  · rfl
  · exact getEnt_rotateFold_ne _ _ _ (fun i hi => h i (by simpa using hi))

theorem rotate_logs_offset (max : Nat) (s : St) :
    (rotate_logs max s).tmplogOffset = s.tmplogOffset := by
  rw [rotate_logs]
  split <;> rfl

theorem rotate_logs_rotated (max : Nat) (s : St) :
    (rotate_logs max s).rotated = true := by
  rw [rotate_logs]
  split
  · assumption
  · rfl

theorem rotate_logs_of_rotated (max : Nat) (s : St) (h : s.rotated = true) :
    rotate_logs max s = s := by
  rw [rotate_logs, if_pos h]

/-! #### `copyDir` fact lemmas -/

theorem copyDir_log_data (e : Env) (off : Nat) (d : Dir) :
    getData (copyDir e off d) "log"
      = some (((getData d "log").getD "")
          ++ String.mk (e.tmpLog.data.drop off)) := by
  rw [copyDir, getData_chmodF, getData_chmodF, getData_chownF, getData_chmodF,
    getData_chownF, getData_chmodF,
    getData_setData_ne _ _ _ _ (by decide), getData_setData_ne _ _ _ _ (by decide),
    getData_setData_ne _ _ _ _ (by decide), getData_setData_self]

theorem copyDir_lastlog_data (e : Env) (off : Nat) (d : Dir) :
    getData (copyDir e off d) "last_log" = some e.tmpLog := by
  rw [copyDir, getData_chmodF, getData_chmodF, getData_chownF, getData_chmodF,
    getData_chownF, getData_chmodF,
    getData_setData_ne _ _ _ _ (by decide), getData_setData_ne _ _ _ _ (by decide),
    getData_setData_self]

theorem copyDir_lastinstall_data (e : Env) (off : Nat) (d : Dir) :
    getData (copyDir e off d) "last_install" = some e.tmpInstall := by
  rw [copyDir, getData_chmodF, getData_chmodF, getData_chownF, getData_chmodF,
    getData_chownF, getData_chmodF,
    getData_setData_ne _ _ _ _ (by decide), getData_setData_self]

theorem copyDir_lastkmsg_data (e : Env) (off : Nat) (d : Dir) :
    getData (copyDir e off d) "last_kmsg" = some e.kmsg := by
  rw [copyDir, getData_chmodF, getData_chmodF, getData_chownF, getData_chmodF,
    getData_chownF, getData_chmodF, getData_setData_self]

theorem copyDir_log_mode (e : Env) (off : Nat) (d : Dir) :
    getMode (copyDir e off d) "log" = some 0o600 := by
  rw [copyDir, getMode_chmodF_ne _ _ _ _ (by decide),
    getMode_chmodF_ne _ _ _ _ (by decide), getMode_chownF,
    getMode_chmodF_ne _ _ _ _ (by decide), getMode_chownF, getMode_chmodF_self,
    getMode_setData_ne _ _ _ _ (by decide), getMode_setData_ne _ _ _ _ (by decide),
    getMode_setData_ne _ _ _ _ (by decide)]
  obtain ⟨m, hm⟩ := Option.isSome_iff_exists.mp
    (getMode_setData_isSome d "log"
      (((getData d "log").getD "") ++ String.mk (e.tmpLog.data.drop off)))
  rw [hm]
  rfl

theorem copyDir_log_uid (e : Env) (off : Nat) (d : Dir) :
    getUid (copyDir e off d) "log" = some 1000 := by
  rw [copyDir, getUid_chmodF, getUid_chmodF, getUid_chownF_ne _ _ _ _ _ (by decide),
    getUid_chmodF, getUid_chownF_self, getUid_chmodF,
    getUid_setData_ne _ _ _ _ (by decide), getUid_setData_ne _ _ _ _ (by decide),
    getUid_setData_ne _ _ _ _ (by decide)]
  obtain ⟨u, hu⟩ := Option.isSome_iff_exists.mp
    (getUid_setData_isSome d "log"
      (((getData d "log").getD "") ++ String.mk (e.tmpLog.data.drop off)))
  rw [hu]
  rfl

theorem copyDir_log_gid (e : Env) (off : Nat) (d : Dir) :
    getGid (copyDir e off d) "log" = some 1000 := by
  rw [copyDir, getGid_chmodF, getGid_chmodF, getGid_chownF_ne _ _ _ _ _ (by decide),
    getGid_chmodF, getGid_chownF_self, getGid_chmodF,
    getGid_setData_ne _ _ _ _ (by decide), getGid_setData_ne _ _ _ _ (by decide),
    getGid_setData_ne _ _ _ _ (by decide)]
  obtain ⟨g, hg⟩ := Option.isSome_iff_exists.mp
    (getGid_setData_isSome d "log"
      (((getData d "log").getD "") ++ String.mk (e.tmpLog.data.drop off)))
  rw [hg]
  rfl

theorem copyDir_lastkmsg_mode (e : Env) (off : Nat) (d : Dir) :
    getMode (copyDir e off d) "last_kmsg" = some 0o600 := by
  rw [copyDir, getMode_chmodF_ne _ _ _ _ (by decide),
    getMode_chmodF_ne _ _ _ _ (by decide), getMode_chownF, getMode_chmodF_self,
    getMode_chownF, getMode_chmodF_ne _ _ _ _ (by decide)]
  obtain ⟨m, hm⟩ := Option.isSome_iff_exists.mp
    (getMode_setData_isSome _ "last_kmsg" e.kmsg)
  rw [hm]
  rfl

theorem copyDir_lastkmsg_uid (e : Env) (off : Nat) (d : Dir) :
    getUid (copyDir e off d) "last_kmsg" = some 1000 := by
  rw [copyDir, getUid_chmodF, getUid_chmodF, getUid_chownF_self, getUid_chmodF,
    getUid_chownF_ne _ _ _ _ _ (by decide), getUid_chmodF]
  obtain ⟨u, hu⟩ := Option.isSome_iff_exists.mp
    (getUid_setData_isSome _ "last_kmsg" e.kmsg)
  rw [hu]
  rfl

theorem copyDir_lastkmsg_gid (e : Env) (off : Nat) (d : Dir) :
    getGid (copyDir e off d) "last_kmsg" = some 1000 := by
  rw [copyDir, getGid_chmodF, getGid_chmodF, getGid_chownF_self, getGid_chmodF,
    getGid_chownF_ne _ _ _ _ _ (by decide), getGid_chmodF]
  obtain ⟨g, hg⟩ := Option.isSome_iff_exists.mp
    (getGid_setData_isSome _ "last_kmsg" e.kmsg)
  rw [hg]
  rfl

theorem copyDir_lastlog_mode (e : Env) (off : Nat) (d : Dir) :
    getMode (copyDir e off d) "last_log" = some 0o640 := by
  rw [copyDir, getMode_chmodF_ne _ _ _ _ (by decide), getMode_chmodF_self,
    getMode_chownF, getMode_chmodF_ne _ _ _ _ (by decide), getMode_chownF,
    getMode_chmodF_ne _ _ _ _ (by decide),
    getMode_setData_ne _ _ _ _ (by decide), getMode_setData_ne _ _ _ _ (by decide)]
  obtain ⟨m, hm⟩ := Option.isSome_iff_exists.mp
    (getMode_setData_isSome _ "last_log" e.tmpLog)
  rw [hm]
  rfl

theorem copyDir_lastinstall_mode (e : Env) (off : Nat) (d : Dir) :
    getMode (copyDir e off d) "last_install" = some 0o644 := by
  rw [copyDir, getMode_chmodF_self, getMode_chmodF_ne _ _ _ _ (by decide),
    getMode_chownF, getMode_chmodF_ne _ _ _ _ (by decide), getMode_chownF,
    getMode_chmodF_ne _ _ _ _ (by decide),
    getMode_setData_ne _ _ _ _ (by decide)]
  obtain ⟨m, hm⟩ := Option.isSome_iff_exists.mp
    (getMode_setData_isSome _ "last_install" e.tmpInstall)
  rw [hm]
  rfl

theorem getEnt_copyDir_ne (e : Env) (off : Nat) (d : Dir) (x : String)
    (hx1 : x ≠ "log") (hx2 : x ≠ "last_log") (hx3 : x ≠ "last_install")
    (hx4 : x ≠ "last_kmsg") :
    getEnt (copyDir e off d) x = getEnt d x := by
  rw [copyDir, getEnt_chmodF_ne _ _ _ _ hx3, getEnt_chmodF_ne _ _ _ _ hx2,
    getEnt_chownF_ne _ _ _ _ _ hx4, getEnt_chmodF_ne _ _ _ _ hx4,
    getEnt_chownF_ne _ _ _ _ _ hx1, getEnt_chmodF_ne _ _ _ _ hx1,
    getEnt_setData_ne _ _ _ _ hx4, getEnt_setData_ne _ _ _ _ hx3,
    getEnt_setData_ne _ _ _ _ hx2, getEnt_setData_ne _ _ _ _ hx1]

theorem copyDir_noop (e : Env) (off : Nat) (d : Dir)
    (hlog : (getData d "log").isSome) (hoff : e.tmpLog.data.length ≤ off)
    (hll : getData d "last_log" = some e.tmpLog)
    (hli : getData d "last_install" = some e.tmpInstall)
    (hlk : getData d "last_kmsg" = some e.kmsg)
    (hmlog : getMode d "log" = some 0o600)
    (hulog : getUid d "log" = some 1000)
    (hglog : getGid d "log" = some 1000)
    (hmk : getMode d "last_kmsg" = some 0o600)
    (huk : getUid d "last_kmsg" = some 1000)
    (hgk : getGid d "last_kmsg" = some 1000)
    (hml : getMode d "last_log" = some 0o640)
    (hmi : getMode d "last_install" = some 0o644) :
    copyDir e off d = d := by
  obtain ⟨c, hc⟩ := Option.isSome_iff_exists.mp hlog
  have hdrop : e.tmpLog.data.drop off = [] := List.drop_eq_nil_of_le hoff
  have hval : ((getData d "log").getD "") ++ String.mk (e.tmpLog.data.drop off)
      = c := by
    rw [hc, hdrop]
    exact strAppend_empty c
  rw [copyDir, hval, setData_noop d "log" c hc, setData_noop _ _ _ hll,
    setData_noop _ _ _ hli, setData_noop _ _ _ hlk, chmodF_noop _ _ _ hmlog,
    chownF_noop _ _ _ _ hulog hglog, chmodF_noop _ _ _ hmk,
    chownF_noop _ _ _ _ huk hgk, chmodF_noop _ _ _ hml, chmodF_noop _ _ _ hmi]

/-! #### `copy_logs` lemmas -/

theorem copy_logs_skip (e : Env) (s : St) (h : e.modifiedFlash = false) :
    copy_logs e s = s := by
  rw [copy_logs, if_pos h]

theorem copy_logs_eq (e : Env) (s : St) (h : e.modifiedFlash = true) :
    copy_logs e s
      = { rotate_logs KEEP_LOG_COUNT s with
          dir := copyDir e (rotate_logs KEEP_LOG_COUNT s).tmplogOffset
            (rotate_logs KEEP_LOG_COUNT s).dir
          tmplogOffset := Nat.max (rotate_logs KEEP_LOG_COUNT s).tmplogOffset
            e.tmpLog.data.length } := by
  rw [copy_logs, if_neg (by simp [h])]

theorem copy_logs_noop (e : Env) (s : St)
    (hrot : s.rotated = true)
    (hoff : e.tmpLog.data.length ≤ s.tmplogOffset)
    (hlog : (getData s.dir "log").isSome)
    (hll : getData s.dir "last_log" = some e.tmpLog)
    (hli : getData s.dir "last_install" = some e.tmpInstall)
    (hlk : getData s.dir "last_kmsg" = some e.kmsg)
    (hmlog : getMode s.dir "log" = some 0o600)
    (hulog : getUid s.dir "log" = some 1000)
    (hglog : getGid s.dir "log" = some 1000)
    (hmk : getMode s.dir "last_kmsg" = some 0o600)
    (huk : getUid s.dir "last_kmsg" = some 1000)
    (hgk : getGid s.dir "last_kmsg" = some 1000)
    (hml : getMode s.dir "last_log" = some 0o640)
    (hmi : getMode s.dir "last_install" = some 0o644) :
    copy_logs e s = s := by
  cases hm : e.modifiedFlash with
  | false => exact copy_logs_skip e s hm
  | true =>
    have hmax : Nat.max s.tmplogOffset e.tmpLog.data.length = s.tmplogOffset :=
      Nat.max_eq_left hoff
    rw [copy_logs_eq e s hm, rotate_logs_of_rotated _ _ hrot,
      copyDir_noop e _ _ hlog hoff hll hli hlk hmlog hulog hglog hmk huk hgk
        hml hmi, hmax]

theorem getEnt_copy_logs_away (e : Env) (s : St) (x : String)
    (h : awayFromCopy x) :
    getEnt (copy_logs e s).dir x = getEnt s.dir x := by
  obtain ⟨hx1, hx2, hx3, hx4, hx5⟩ := h
  cases hm : e.modifiedFlash with
  | false => rw [copy_logs_skip e s hm]
  | true =>
    rw [copy_logs_eq e s hm]
    show getEnt (copyDir e (rotate_logs KEEP_LOG_COUNT s).tmplogOffset
      (rotate_logs KEEP_LOG_COUNT s).dir) x = getEnt s.dir x
    rw [getEnt_copyDir_ne _ _ _ _ hx1 hx2 hx3 hx4]
    exact getEnt_rotate_logs_ne _ _ _ hx5

theorem getData_copy_logs_away (e : Env) (s : St) (x : String)
    (h : awayFromCopy x) :
    getData (copy_logs e s).dir x = getData s.dir x := by
  simp only [getData, getEnt_copy_logs_away e s x h]

/-- The directory after the intent/locale writes of `finish_recovery`. -/
def finishDirArg (e : Env) (s : St) : Dir :=
  writeOpt e.locale "last_locale" (writeOpt e.sendIntent "intent" s.dir)

/-- The state after the intent/locale writes and `copy_logs` in
`finish_recovery`. -/
def finishMid (e : Env) (s : St) : St :=
  copy_logs e { s with dir := finishDirArg e s }

theorem finish_recovery_eq (e : Env) (s : St) :
    finish_recovery e s
      = { finishMid e s with
          boot := bootZero
          dir := removeF (finishMid e s).dir "command" } := rfl

theorem after_copy_facts (e : Env) (sw : St) (hm : e.modifiedFlash = true) :
    (getData (removeF (copy_logs e sw).dir "command") "log").isSome ∧
    getData (removeF (copy_logs e sw).dir "command") "last_log"
      = some e.tmpLog ∧
    getData (removeF (copy_logs e sw).dir "command") "last_install"
      = some e.tmpInstall ∧
    getData (removeF (copy_logs e sw).dir "command") "last_kmsg"
      = some e.kmsg ∧
    getMode (removeF (copy_logs e sw).dir "command") "log" = some 0o600 ∧
    getUid (removeF (copy_logs e sw).dir "command") "log" = some 1000 ∧
    getGid (removeF (copy_logs e sw).dir "command") "log" = some 1000 ∧
    getMode (removeF (copy_logs e sw).dir "command") "last_kmsg"
      = some 0o600 ∧
    getUid (removeF (copy_logs e sw).dir "command") "last_kmsg" = some 1000 ∧
    getGid (removeF (copy_logs e sw).dir "command") "last_kmsg" = some 1000 ∧
    getMode (removeF (copy_logs e sw).dir "command") "last_log"
      = some 0o640 ∧
    getMode (removeF (copy_logs e sw).dir "command") "last_install"
      = some 0o644 := by
  refine ⟨?_, ?_, ?_, ?_, ?_, ?_, ?_, ?_, ?_, ?_, ?_, ?_⟩
  · rw [getData_removeF_ne _ _ _ (by decide), copy_logs_eq e sw hm,
      copyDir_log_data]
    rfl
  · rw [getData_removeF_ne _ _ _ (by decide), copy_logs_eq e sw hm]
    exact copyDir_lastlog_data e _ _
  · rw [getData_removeF_ne _ _ _ (by decide), copy_logs_eq e sw hm]
    exact copyDir_lastinstall_data e _ _
  · rw [getData_removeF_ne _ _ _ (by decide), copy_logs_eq e sw hm]
    exact copyDir_lastkmsg_data e _ _
  · rw [getMode_removeF_ne _ _ _ (by decide), copy_logs_eq e sw hm]
    exact copyDir_log_mode e _ _
  · rw [getUid_removeF_ne _ _ _ (by decide), copy_logs_eq e sw hm]
    exact copyDir_log_uid e _ _
  · rw [getGid_removeF_ne _ _ _ (by decide), copy_logs_eq e sw hm]
    exact copyDir_log_gid e _ _
  · rw [getMode_removeF_ne _ _ _ (by decide), copy_logs_eq e sw hm]
    exact copyDir_lastkmsg_mode e _ _
  · rw [getUid_removeF_ne _ _ _ (by decide), copy_logs_eq e sw hm]
    exact copyDir_lastkmsg_uid e _ _
  · rw [getGid_removeF_ne _ _ _ (by decide), copy_logs_eq e sw hm]
    exact copyDir_lastkmsg_gid e _ _
  · rw [getMode_removeF_ne _ _ _ (by decide), copy_logs_eq e sw hm]
    exact copyDir_lastlog_mode e _ _
  · rw [getMode_removeF_ne _ _ _ (by decide), copy_logs_eq e sw hm]
    exact copyDir_lastinstall_mode e _ _

/-- C2: the session-finish routine is idempotent — running `finish_recovery`
twice in succession from any session state yields exactly the state of running
it once (control block zeroed, command file absent, same log and locale
files); moreover after any run the control block is zeroed and the command
file is absent. -/
theorem c2_finish_idempotent :
    (∀ e s, finish_recovery e (finish_recovery e s) = finish_recovery e s) ∧
    (∀ e s, (finish_recovery e s).boot = bootZero) ∧
    (∀ (e : Env) (s : St),
      getEnt (finish_recovery e s).dir "command" = none) := by
  have hcmdnone : ∀ (e : Env) (s : St),
      getEnt (finish_recovery e s).dir "command" = none :=
    fun e s => getEnt_removeF_self _ _
  refine ⟨?_, fun e s => rfl, hcmdnone⟩
  intro e s
  have hFdir : (finish_recovery e s).dir
      = removeF (finishMid e s).dir "command" := rfl
  have f_intent : ∀ v, e.sendIntent = some v →
      getData (finish_recovery e s).dir "intent" = some v := by
    intro v hv
    rw [hFdir, getData_removeF_ne _ _ _ (by decide)]
    show getData (copy_logs e { s with dir := finishDirArg e s }).dir "intent"
      = some v
    rw [getData_copy_logs_away _ _ _ (by decide)]
    show getData (writeOpt e.locale "last_locale"
      (writeOpt e.sendIntent "intent" s.dir)) "intent" = some v
    rw [getData_writeOpt_ne _ _ _ _ (by decide), hv]
    exact getData_setData_self _ _ _
  have f_locale : ∀ v, e.locale = some v →
      getData (finish_recovery e s).dir "last_locale" = some v := by
    intro v hv
    rw [hFdir, getData_removeF_ne _ _ _ (by decide)]
    show getData (copy_logs e { s with dir := finishDirArg e s }).dir
      "last_locale" = some v
    rw [getData_copy_logs_away _ _ _ (by decide)]
    show getData (writeOpt e.locale "last_locale"
      (writeOpt e.sendIntent "intent" s.dir)) "last_locale" = some v
    rw [hv]
    exact getData_setData_self _ _ _
  have hD : finishDirArg e (finish_recovery e s) = (finish_recovery e s).dir := by
    show writeOpt e.locale "last_locale"
      (writeOpt e.sendIntent "intent" (finish_recovery e s).dir)
      = (finish_recovery e s).dir
    rw [writeOpt_noop e.sendIntent "intent" _ f_intent,
      writeOpt_noop e.locale "last_locale" _ f_locale]
  have hMid : finishMid e (finish_recovery e s)
      = copy_logs e (finish_recovery e s) := by
    show copy_logs e
      { finish_recovery e s with dir := finishDirArg e (finish_recovery e s) }
      = copy_logs e (finish_recovery e s)
    rw [hD]
  rw [finish_recovery_eq e (finish_recovery e s), hMid]
  cases hm : e.modifiedFlash with
  | false =>
    rw [copy_logs_skip e _ hm, removeF_noop _ _ (hcmdnone e s)]
    rfl
  | true =>
    obtain ⟨f1, f2, f3, f4, f5, f6, f7, f8, f9, f10, f11, f12⟩ :=
      after_copy_facts e { s with dir := finishDirArg e s } hm
    have f_rot : (finish_recovery e s).rotated = true := by
      show (copy_logs e { s with dir := finishDirArg e s }).rotated = true
      rw [copy_logs_eq e _ hm]
      exact rotate_logs_rotated _ _
    have f_off : e.tmpLog.data.length
        ≤ (finish_recovery e s).tmplogOffset := by
      show e.tmpLog.data.length
        ≤ (copy_logs e { s with dir := finishDirArg e s }).tmplogOffset
      rw [copy_logs_eq e _ hm]
      exact Nat.le_max_right _ _
    rw [copy_logs_noop e (finish_recovery e s) f_rot f_off
      f1 f2 f3 f4 f5 f6 f7 f8 f9 f10 f11 f12]
    rw [removeF_noop _ _ (hcmdnone e s)]
    rfl

/-! #### `erase_volume` lemmas (C3, C4) -/

/-- A file entry with its contents truncated to the log cap. -/
def truncEnt (en : FileEnt) : FileEnt :=
  { en with data := truncData en.data }

/-- The observable of C3: names and cap-truncated contents of the
`last_*`/`log` files of a directory. -/
def logEntries (d : Dir) : List (String × String) :=
  (d.filter (fun en => isLogName en.name)).map
    (fun en => (en.name, truncData en.data))

theorem truncData_idem (s : String) : truncData (truncData s) = truncData s := by
  rw [truncData, truncData, mk_data, List.take_take, Nat.min_self]

theorem saveLogs_eq (d : Dir) :
    saveLogs d
      = ((d.filter (fun en => isLogName en.name)).map truncEnt).reverse := by
  have aux : ∀ (l : List FileEnt) (acc : List FileEnt),
      l.foldl
        (fun acc ent =>
          if isLogName ent.name then { ent with data := truncData ent.data } :: acc
          else acc) acc
        = ((l.filter (fun en => isLogName en.name)).map truncEnt).reverse ++ acc := by
    intro l
    induction l with
    | nil => intro acc; rfl
    | cons e es ih =>
      intro acc
      by_cases he : isLogName e.name
      · simp [List.foldl_cons, he, ih, truncEnt, List.filter_cons]
      · simp [List.foldl_cons, he, ih, truncEnt, List.filter_cons]
  rw [saveLogs, aux]
  simp

theorem setData_append_new (d : Dir) (n v : String) (h : getEnt d n = none) :
    setData d n v = d ++ [⟨n, v, defaultMode, 0, 0⟩] := by
  induction d with
  | nil => rfl
  | cons e es ih =>
    by_cases he : e.name = n
    · simp [he] at h
    · simp [he] at h
      simp only [setData, if_neg he, List.cons_append, ih h]

theorem chmodF_append_last (d : Dir) (x : FileEnt) (n : String) (m : Nat)
    (hd : getEnt d n = none) (hx : x.name = n) :
    chmodF (d ++ [x]) n m = d ++ [{ x with mode := m }] := by
  induction d with
  | nil => simp [chmodF, hx]
  | cons e es ih =>
    by_cases he : e.name = n
    · simp [he] at hd
    · simp [he] at hd
      rw [List.cons_append, chmodF, if_neg he, ih hd, List.cons_append]

theorem chownF_append_last (d : Dir) (x : FileEnt) (n : String) (u g : Nat)
    (hd : getEnt d n = none) (hx : x.name = n) :
    chownF (d ++ [x]) n u g = d ++ [{ x with uid := u, gid := g }] := by
  induction d with
  | nil => simp [chownF, hx]
  | cons e es ih =>
    by_cases he : e.name = n
    · simp [he] at hd
    · simp [he] at hd
      rw [List.cons_append, chownF, if_neg he, ih hd, List.cons_append]

theorem restoreSaved_append (l : List FileEnt) (d : Dir)
    (hn : ∀ x ∈ l, getEnt d x.name = none)
    (hnd : (l.map (fun x => x.name)).Nodup) :
    restoreSaved l d = d ++ l := by
  induction l generalizing d with
  | nil => simp [restoreSaved]
  | cons e es ih =>
    have hde : getEnt d e.name = none := hn e (by simp)
    have h1 : setData d e.name e.data
        = d ++ [⟨e.name, e.data, defaultMode, 0, 0⟩] :=
      setData_append_new d e.name e.data hde
    have h2 : chmodF (d ++ [⟨e.name, e.data, defaultMode, 0, 0⟩]) e.name e.mode
        = d ++ [⟨e.name, e.data, e.mode, 0, 0⟩] := by
      rw [chmodF_append_last d ⟨e.name, e.data, defaultMode, 0, 0⟩ e.name
        e.mode hde rfl]
    have h3 : chownF (d ++ [⟨e.name, e.data, e.mode, 0, 0⟩]) e.name e.uid e.gid
        = d ++ [e] := by
      rw [chownF_append_last d ⟨e.name, e.data, e.mode, 0, 0⟩ e.name
        e.uid e.gid hde rfl]
    have hhead : e.name ∉ es.map (fun x => x.name) :=
      (List.nodup_cons.mp hnd).1
    have hpre : ∀ x ∈ es, getEnt (d ++ [e]) x.name = none := by
      intro x hx
      rw [getEnt_append_of_none _ _ _ (hn x (by simp [hx]))]
      have hne : ¬ e.name = x.name := by
        intro hh
        exact hhead (hh ▸ List.mem_map_of_mem (fun y => y.name) hx)
      simp [hne]
    rw [restoreSaved, h1, h2, h3, ih (d ++ [e]) hpre (List.nodup_cons.mp hnd).2]
    simp

theorem logEntries_mapTrunc (l : List FileEnt) :
    logEntries (l.map truncEnt) = logEntries l := by
  induction l with
  | nil => rfl
  | cons e es ih =>
    by_cases he : isLogName e.name
    · simp only [logEntries] at ih
      simp [logEntries, List.filter_cons, truncEnt, he, truncData_idem, ih]
    · simp only [logEntries] at ih
      simp [logEntries, List.filter_cons, truncEnt, he, ih]

theorem logEntries_filter (d : Dir) :
    logEntries (d.filter (fun en => isLogName en.name)) = logEntries d := by
  rw [logEntries, logEntries, List.filter_filter]
  simp

theorem logEntries_reverse (d : Dir) :
    logEntries d.reverse = (logEntries d).reverse := by
  rw [logEntries, logEntries, List.filter_reverse, List.map_reverse]

theorem logEntries_saveLogs (d : Dir) :
    logEntries (saveLogs d) = (logEntries d).reverse := by
  rw [saveLogs_eq, logEntries_reverse, logEntries_mapTrunc, logEntries_filter]

theorem saveLogs_names_nodup (d : Dir)
    (h : (d.map (fun en => en.name)).Nodup) :
    ((saveLogs d).map (fun en => en.name)).Nodup := by
  rw [saveLogs_eq, List.map_reverse, List.nodup_reverse, List.map_map]
  have : (fun en => en.name) ∘ truncEnt = fun en : FileEnt => en.name := by
    funext en
    rfl
  rw [this]
  exact h.sublist (List.Sublist.map _ (List.filter_sublist d))

/-- C4: `erase_volume` returns true iff the format primitive reports success
(returns 0), for every volume, force flag and state — independent of the
save/restore of cache logs. -/
theorem c4_erase_returns_format_status (e : Env) (volume : String)
    (force : Bool) (s : St) :
    ((erase_volume e volume force s).2 = true) ↔ e.formatRet = 0 := by
  show ((e.formatRet == 0) = true) ↔ e.formatRet = 0
  simp

/-- Environment for the C3 counterexample: a session that has modified flash,
with temp-log contents differing from the saved cache log. -/
def envC3 : Env := ⟨"T", "I", "K", true, none, none, 0⟩

/-- State for the C3 counterexample: the cache holds one previous `last_log`. -/
def stC3 : St := ⟨[⟨"last_log", "B", 0o640, 0, 0⟩], bootZero, 5, false⟩

/-- C3 counterexample: in a session with `modified_flash` set (which holds on
every wipe path, since the wipe functions set it before calling
`erase_volume`), a non-forced cache erase does not preserve the set of
`last_*`/`log` names and truncated contents: the trailing `copy_logs` rotates
the restored `last_log` away and rewrites it from the current session log. -/
theorem c3_counterexample :
    ("last_log", truncData "B") ∈ logEntries stC3.dir ∧
    ("last_log", truncData "B") ∉
      logEntries (erase_volume envC3 "/cache" false stC3).1.dir := by
  decide

/-- C3 (amended): for a non-forced cache erase in a session that has **not**
modified flash (so the trailing `copy_logs` re-copy is a no-op), the set of
`last_*`/`log` names with cap-truncated contents after `erase_volume` is a
permutation of the set before, even though the volume was reformatted in
between, and the log rotation offset is reset to 0. -/
theorem c3_cache_log_preservation (e : Env) (s : St)
    (hm : e.modifiedFlash = false)
    (hnd : (s.dir.map (fun en => en.name)).Nodup) :
    List.Perm (logEntries (erase_volume e "/cache" false s).1.dir)
      (logEntries s.dir) ∧
    (erase_volume e "/cache" false s).1.tmplogOffset = 0 := by
  have h1 : (erase_volume e "/cache" false s).1
      = copy_logs e
          { s with dir := restoreSaved (saveLogs s.dir) [], tmplogOffset := 0 } :=
    rfl
  rw [h1, copy_logs_skip e _ hm]
  have h2 : restoreSaved (saveLogs s.dir) [] = saveLogs s.dir := by
    rw [restoreSaved_append (saveLogs s.dir) [] (by simp)
      (saveLogs_names_nodup s.dir hnd)]
    simp
  constructor
  · show List.Perm (logEntries (restoreSaved (saveLogs s.dir) []))
      (logEntries s.dir)
    rw [h2, logEntries_saveLogs]
    exact (logEntries s.dir).reverse_perm
  · rfl

/-- C3 witness: a concrete non-forced cache erase with `modified_flash` unset
preserves the `last_*`/`log` set. -/
theorem c3_cache_log_preservation_witness :
    ((⟨"T", "I", "K", false, none, none, 0⟩ : Env).modifiedFlash = false) ∧
    List.Perm (logEntries (erase_volume ⟨"T", "I", "K", false, none, none, 0⟩
      "/cache" false stC3).1.dir) (logEntries stC3.dir) :=
  ⟨rfl,
    (c3_cache_log_preservation ⟨"T", "I", "K", false, none, none, 0⟩ stC3
      rfl (by decide)).1⟩

/-! ### Menu state machine (`ScreenRecoveryUI::SelectMenu`, screen_ui.cpp
lines 937-985) -/

/-- The menu fields of `ScreenRecoveryUI` that `SelectMenu` reads and writes
(`show_menu`, `menu_items`, `menu_sel`, `menu_show_start_`, `header_items`,
`max_menu_rows_`, `wrap_count`, `rainbow`); all counters are C `int`. -/
structure MenuSt where
  show_menu : Bool
  menu_items : Int
  menu_sel : Int
  menu_show_start : Int
  header_items : Int
  max_menu_rows : Int
  wrap_count : Int
  rainbow : Bool
deriving DecidableEq

/-- `ScreenRecoveryUI::OMGRainbows` (screen_ui.cpp lines 468-473): toggles the
rainbow flag.  (`set_rainbow_mode` and the property write are external side
effects with no effect on this state.) -/
def OMGRainbows (st : MenuSt) : MenuSt :=
  { st with rainbow := !st.rainbow }

/-- `ScreenRecoveryUI::SelectMenu(sel, abs)` (screen_ui.cpp lines 937-985):
absolute-selection offset, wrap at top and bottom, scroll-window adjustment,
and the signed wrap counter with its five-wraps easter-egg toggle (C integer
division truncates toward zero, `Int.div`).  Returns the new state and the
returned `sel`. -/
def SelectMenu (st : MenuSt) (sel0 : Int) (abs : Bool) : MenuSt × Int :=
  let sel1 := if abs then sel0 + st.menu_show_start - st.header_items else sel0
  if st.show_menu then
    let ms1 := sel1
    let w1ms2 : Int × Int :=
      if ms1 < 0 then (-1, st.menu_items + ms1) else (0, ms1)
    let wms3 : Int × Int :=
      if w1ms2.2 ≥ st.menu_items then (1, w1ms2.2 - st.menu_items) else w1ms2
    let wrapped := wms3.1
    let ms3 := wms3.2
    let start1 :=
      if ms3 < st.menu_show_start ∧ st.menu_show_start > 0 then ms3
      else st.menu_show_start
    let start2 :=
      if ms3 - start1 ≥ st.max_menu_rows - st.header_items
      then ms3 - (st.max_menu_rows - st.header_items) + 1
      else start1
    let st1 := { st with menu_sel := ms3, menu_show_start := start2 }
    let st2 :=
      if wrapped ≠ 0 then
        let wc1 :=
          if Int.tdiv st1.wrap_count wrapped > 0 then st1.wrap_count + wrapped
          else wrapped
        if Int.tdiv wc1 wrapped ≥ 5 then OMGRainbows { st1 with wrap_count := 0 }
        else { st1 with wrap_count := wc1 }
      else st1
    (st2, ms3)
  else (st, sel1)

/-- One `kHighlightDown` step as driven by `get_menu_selection`
(recovery.cpp line 709): `SelectMenu(++selected)`. -/
def downStep (st : MenuSt) : MenuSt :=
  (SelectMenu st (st.menu_sel + 1) false).1

/-- Iterated highlight-down steps. -/
def downIter : Nat → MenuSt → MenuSt
  | 0, st => st
  | k + 1, st => downStep (downIter k st)

/-- A five-item menu with the last item selected and a fresh wrap counter. -/
def menuSt0 : MenuSt :=
  ⟨true, 5, 4, 0, 0, 10, 0, false⟩

/-- C5: menu wrap.  For a shown menu with `item_count = 5` and selection 4, a
highlight-down yields selection 0 and (while no opposite wrap has intervened,
so the counter is a nonnegative value below the trigger) increments the wrap
counter by one; and in the concrete five-wrap scenario starting from a fresh
counter, the easter-egg toggle fires exactly once — the rainbow flag is
unchanged through the first 20 steps and flips at step 21 (the fifth wrap),
with the counter reset to 0. -/
theorem c5_menu_wrap :
    (∀ st : MenuSt, st.show_menu = true → st.menu_items = 5 →
      st.menu_sel = 4 → 0 ≤ st.wrap_count → st.wrap_count < 4 →
      (SelectMenu st (st.menu_sel + 1) false).2 = 0 ∧
      (SelectMenu st (st.menu_sel + 1) false).1.menu_sel = 0 ∧
      (SelectMenu st (st.menu_sel + 1) false).1.wrap_count
        = st.wrap_count + 1 ∧
      (SelectMenu st (st.menu_sel + 1) false).1.rainbow = st.rainbow) ∧
    ((List.range 21).all
      (fun k => (downIter k menuSt0).rainbow == false)) = true ∧
    (downIter 21 menuSt0).rainbow = true ∧
    (downIter 21 menuSt0).wrap_count = 0 ∧
    (downIter 1 menuSt0).menu_sel = 0 ∧
    (downIter 1 menuSt0).wrap_count = 1 := by
  refine ⟨?_, by decide, by decide, by decide, by decide, by decide⟩
  intro st hshow hitems hsel hwc0 hwc4
  obtain ⟨sm, mi, ms, mss, hi, mmr, wc, rb⟩ := st
  simp only at hshow hitems hsel hwc0 hwc4
  subst hshow
  subst hitems
  subst hsel
  simp only [SelectMenu, OMGRainbows]
  norm_num
  split_ifs <;> simp_all <;> omega

/-- C5 witness: the general conjunct applied to the concrete fresh menu. -/
theorem c5_menu_wrap_witness :
    (menuSt0.show_menu = true ∧ menuSt0.menu_items = 5 ∧
      menuSt0.menu_sel = 4 ∧ 0 ≤ menuSt0.wrap_count ∧
      menuSt0.wrap_count < 4) ∧
    (SelectMenu menuSt0 (menuSt0.menu_sel + 1) false).2 = 0 ∧
    (SelectMenu menuSt0 (menuSt0.menu_sel + 1) false).1.menu_sel = 0 ∧
    (SelectMenu menuSt0 (menuSt0.menu_sel + 1) false).1.wrap_count
      = menuSt0.wrap_count + 1 ∧
    (SelectMenu menuSt0 (menuSt0.menu_sel + 1) false).1.rainbow
      = menuSt0.rainbow :=
  ⟨by decide,
    c5_menu_wrap.1 menuSt0 rfl rfl rfl (by decide) (by decide)⟩

/-! ### The blocking menu driver (`get_menu_selection`, recovery.cpp lines
644-736)

The device-policy action codes come from `device.h`, which is not under the
repository sources.  Modelled from the spec: the driver translates
device-reported actions into highlight-up/down, invoke, go-back, go-home,
refresh and no-action; the codes are distinct negative integers compared only
for equality, with `kNoAction = -1` and the rest following in order. -/

def kNoAction : Int := -1
def kHighlightUp : Int := -2
def kHighlightDown : Int := -3
def kInvokeItem : Int := -4
def kGoBack : Int := -5
def kGoHome : Int := -6
def kRefresh : Int := -7

/-- Modelled from the spec: `KEY_FLAG_ABS` marks an absolute selection in a
device action code (bit 16); `action &= ~KEY_FLAG_ABS` clears that bit. -/
def clearAbsFlag (a : Int) : Int :=
  Int.ofNat (if a.toNat.testBit 16 then a.toNat - 65536 else a.toNat)

/-- The `while` condition of `get_menu_selection` (lines 665-668): the loop
keeps running while `chosen_item` is negative and none of the back/home/refresh
exits. -/
def gmsCont (v : Int) : Bool :=
  decide (v < 0 ∧ v ≠ kGoBack ∧ v ≠ kGoHome ∧ v ≠ kRefresh)

/-- How one run of the `get_menu_selection` loop ends. -/
inductive GmsOut where
  /-- `WaitKey` timed out and text was never visible: log, end menu, return 0
  ("abandon and reboot"). -/
  | timeoutReboot
  /-- `WaitKey` returned -2 (`ui_cancel_wait_key`): return `kNoAction`. -/
  | cancelKey
  /-- `WaitKey` returned -6: return `kRefresh`. -/
  | refreshKey
  /-- The `while` condition failed: an invoked item (`chosen_item ≥ 0`) or an
  explicit back/home/refresh action. -/
  | menuDone (v : Int)
deriving DecidableEq

/-- The `int` value `get_menu_selection` returns for each exit. -/
def exitValue : GmsOut → Int
  | .timeoutReboot => 0
  | .cancelKey => kNoAction
  | .refreshKey => kRefresh
  | .menuDone v => v

/-- The key-driven loop of `get_menu_selection` (recovery.cpp lines 665-729),
one `WaitKey` result per list element.  `handle` is the device's
`HandleMenuKey`; `ever` is `WasTextEverVisible()` and `visible` is
`IsTextVisible()` (nothing in the loop changes them).  Returns `none` when the
key stream is exhausted with the loop still waiting, otherwise the exit and
the final menu state. -/
def gmsLoop (handle : Int → Bool → Int) (headerCount itemCount : Int)
    (menuOnly : Bool) (ever visible : Bool) :
    List Int → MenuSt → Int → Option (GmsOut × MenuSt)
  | [], _, _ => none
  | key :: keys, st, selected =>
    if key = -1 then
      if ever then gmsLoop handle headerCount itemCount menuOnly ever visible
        keys st selected
      else some (.timeoutReboot, st)
    else if key = -2 then some (.cancelKey, st)
    else if key = -6 then some (.refreshKey, st)
    else
      let action0 := handle key visible
      let t3 : MenuSt × Int × Int :=
        if 0 ≤ action0 then
          let a := clearAbsFlag action0
          if a < headerCount ∨ headerCount + itemCount ≤ a then
            (st, selected, kNoAction)
          else
            let r := SelectMenu st a true
            (r.1, r.2, kInvokeItem)
        else (st, selected, action0)
      let st1 := t3.1
      let selected1 := t3.2.1
      let action := t3.2.2
      if action < 0 then
        if action = kHighlightUp then
          let r := SelectMenu st1 (selected1 - 1) false
          gmsLoop handle headerCount itemCount menuOnly ever visible keys r.1 r.2
        else if action = kHighlightDown then
          let r := SelectMenu st1 (selected1 + 1) false
          gmsLoop handle headerCount itemCount menuOnly ever visible keys r.1 r.2
        else if action = kInvokeItem then
          if gmsCont selected1 then
            gmsLoop handle headerCount itemCount menuOnly ever visible keys
              st1 selected1
          else some (.menuDone selected1, st1)
        else if action = kGoBack then some (.menuDone kGoBack, st1)
        else if action = kGoHome then some (.menuDone kGoHome, st1)
        else if action = kRefresh then some (.menuDone kRefresh, st1)
        else gmsLoop handle headerCount itemCount menuOnly ever visible keys
          st1 selected1
      else if !menuOnly then
        if gmsCont action then
          gmsLoop handle headerCount itemCount menuOnly ever visible keys
            st1 selected1
        else some (.menuDone action, st1)
      else gmsLoop handle headerCount itemCount menuOnly ever visible keys
        st1 selected1

/-- The exits the (amended) C8 claim allows: the never-shown timeout reboot,
the explicit key-wait cancellation, the refresh key, and `while`-condition
exits, which are an invoked item (value ≥ 0) or back/home/refresh. -/
def okExit (ever : Bool) : GmsOut → Prop
  | .timeoutReboot => ever = false
  | .cancelKey => True
  | .refreshKey => True
  | .menuDone v => 0 ≤ v ∨ v = kGoBack ∨ v = kGoHome ∨ v = kRefresh

/-- A concrete menu state for the C8 counterexample. -/
def stC8 : MenuSt := ⟨true, 2, 0, 0, 0, 10, 0, false⟩

/-- C8 counterexample: with the menu/text already shown (`ever = true`), a
`WaitKey` result of -2 (`ui_cancel_wait_key`, used by the sideload path) exits
the loop returning `kNoAction` — a loop exit that is neither the never-shown
timeout nor an item invocation nor a back/home/refresh action, contradicting
the claim's "every other loop exit" clause. -/
theorem c8_counterexample :
    gmsLoop (fun _ _ => kNoAction) 0 2 true true true [-2] stC8 0
      = some (.cancelKey, stC8) ∧
    exitValue .cancelKey = kNoAction ∧
    ¬ (0 ≤ kNoAction ∨ kNoAction = kGoBack ∨ kNoAction = kGoHome
        ∨ kNoAction = kRefresh) := by
  refine ⟨rfl, rfl, ?_⟩
  decide

/-- C8 (amended): a key-read timeout before text was ever visible terminates
the loop as "abandon and reboot" (returning 0); a timeout after text has been
shown is ignored and the driver keeps waiting with unchanged state; and every
other loop exit is an item invocation, an explicit back/home/refresh action,
or an explicit cancellation of the key wait (which returns no-action). -/
theorem c8_menu_driver_exits :
    (∀ (handle : Int → Bool → Int) (hc ic : Int) (mo vis : Bool)
      (ks : List Int) (st : MenuSt) (sel : Int),
      gmsLoop handle hc ic mo false vis (-1 :: ks) st sel
        = some (.timeoutReboot, st)) ∧
    (∀ (handle : Int → Bool → Int) (hc ic : Int) (mo vis : Bool)
      (ks : List Int) (st : MenuSt) (sel : Int),
      gmsLoop handle hc ic mo true vis (-1 :: ks) st sel
        = gmsLoop handle hc ic mo true vis ks st sel) ∧
    (∀ (handle : Int → Bool → Int) (hc ic : Int) (mo ever vis : Bool)
      (keys : List Int) (st : MenuSt) (sel : Int) (ex : GmsOut) (st' : MenuSt),
      gmsLoop handle hc ic mo ever vis keys st sel = some (ex, st') →
      okExit ever ex) := by
  refine ⟨fun handle hc ic mo vis ks st sel => rfl,
    fun handle hc ic mo vis ks st sel => rfl, ?_⟩
  intro handle hc ic mo ever vis keys
  induction keys with
  | nil =>
    intro st sel ex st' h
    exact absurd h (by simp [gmsLoop])
  | cons key ks ih =>
    intro st sel ex st' h
    rw [gmsLoop] at h
    by_cases h1 : key = -1
    · rw [if_pos h1] at h
      by_cases hev : ever = true
      · rw [if_pos hev] at h
        exact ih st sel ex st' h
      · rw [if_neg hev] at h
        injection h with h'
        injection h' with he hs
        rw [← he]
        show okExit ever GmsOut.timeoutReboot
        have hef : ever = false := by
          cases ever
          · rfl
          · exact absurd rfl hev
        exact hef
    · rw [if_neg h1] at h
      by_cases h2 : key = -2
      · rw [if_pos h2] at h
        injection h with h'
        injection h' with he hs
        rw [← he]
        exact trivial
      · rw [if_neg h2] at h
        by_cases h6 : key = -6
        · rw [if_pos h6] at h
          injection h with h'
          injection h' with he hs
          rw [← he]
          exact trivial
        · rw [if_neg h6] at h
          set action0 := handle key vis with ha0
          set t3 : MenuSt × Int × Int :=
            (if 0 ≤ action0 then
              let a := clearAbsFlag action0
              if a < hc ∨ hc + ic ≤ a then (st, sel, kNoAction)
              else
                let r := SelectMenu st a true
                (r.1, r.2, kInvokeItem)
            else (st, sel, action0)) with ht3
          by_cases hneg : t3.2.2 < 0
          · rw [if_pos hneg] at h
            by_cases hu : t3.2.2 = kHighlightUp
            · rw [if_pos hu] at h
              exact ih _ _ ex st' h
            · rw [if_neg hu] at h
              by_cases hd : t3.2.2 = kHighlightDown
              · rw [if_pos hd] at h
                exact ih _ _ ex st' h
              · rw [if_neg hd] at h
                by_cases hi : t3.2.2 = kInvokeItem
                · rw [if_pos hi] at h
                  by_cases hcont : gmsCont t3.2.1 = true
                  · rw [if_pos hcont] at h
                    exact ih _ _ ex st' h
                  · rw [if_neg hcont] at h
                    injection h with h'
                    injection h' with he hs
                    rw [← he]
                    show 0 ≤ t3.2.1 ∨ t3.2.1 = kGoBack ∨ t3.2.1 = kGoHome
                      ∨ t3.2.1 = kRefresh
                    rw [gmsCont] at hcont
                    simp only [decide_eq_true_eq] at hcont
                    by_cases hv : t3.2.1 < 0
                    · by_cases hvb : t3.2.1 = kGoBack
                      · exact Or.inr (Or.inl hvb)
                      · by_cases hvh : t3.2.1 = kGoHome
                        · exact Or.inr (Or.inr (Or.inl hvh))
                        · by_cases hvr : t3.2.1 = kRefresh
                          · exact Or.inr (Or.inr (Or.inr hvr))
                          · exact absurd ⟨hv, hvb, hvh, hvr⟩ hcont
                    · exact Or.inl (by omega)
                · rw [if_neg hi] at h
                  by_cases hb : t3.2.2 = kGoBack
                  · rw [if_pos hb] at h
                    injection h with h'
                    injection h' with he hs
                    rw [← he]
                    show 0 ≤ kGoBack ∨ kGoBack = kGoBack ∨ _ ∨ _
                    right
                    left
                    rfl
                  · rw [if_neg hb] at h
                    by_cases hh : t3.2.2 = kGoHome
                    · rw [if_pos hh] at h
                      injection h with h'
                      injection h' with he hs
                      rw [← he]
                      show 0 ≤ kGoHome ∨ kGoHome = kGoBack ∨ kGoHome = kGoHome
                        ∨ kGoHome = kRefresh
                      right
                      right
                      left
                      rfl
                    · rw [if_neg hh] at h
                      by_cases hr : t3.2.2 = kRefresh
                      · rw [if_pos hr] at h
                        injection h with h'
                        injection h' with he hs
                        rw [← he]
                        show 0 ≤ kRefresh ∨ kRefresh = kGoBack
                          ∨ kRefresh = kGoHome ∨ kRefresh = kRefresh
                        right
                        right
                        right
                        rfl
                      · rw [if_neg hr] at h
                        exact ih _ _ ex st' h
          · rw [if_neg hneg] at h
            by_cases hmo : (!mo) = true
            · rw [if_pos hmo] at h
              by_cases hcont : gmsCont t3.2.2 = true
              · rw [if_pos hcont] at h
                exact ih _ _ ex st' h
              · rw [if_neg hcont] at h
                injection h with h'
                injection h' with he hs
                rw [← he]
                show 0 ≤ t3.2.2 ∨ _ ∨ _ ∨ _
                left
                omega
            · rw [if_neg hmo] at h
              exact ih _ _ ex st' h

/-- C8 witness: the classification applied to a run that cancels the key
wait, and to the never-shown timeout instance. -/
theorem c8_menu_driver_exits_witness :
    (gmsLoop (fun _ _ => kNoAction) 0 2 true true true [-2] stC8 0
      = some (.cancelKey, stC8)) ∧ okExit true .cancelKey ∧
    gmsLoop (fun _ _ => kNoAction) 0 2 true false true [-1] stC8 0
      = some (.timeoutReboot, stC8) := by
  have hrun : gmsLoop (fun _ _ => kNoAction) 0 2 true true true [-2] stC8 0
      = some (.cancelKey, stC8) := by decide
  refine ⟨hrun, ?_, ?_⟩
  · exact c8_menu_driver_exits.2.2 (fun _ _ => kNoAction) 0 2 true true true
      [-2] stC8 0 .cancelKey stC8 hrun
  · exact c8_menu_driver_exits.1 (fun _ _ => kNoAction) 0 2 true true [] stC8 0

/-! ### Progress bar (`ScreenRecoveryUI::SetProgress`, screen_ui.cpp lines
682-696)

The float arithmetic of the source is modelled exactly by rationals; the C
cast `(int)` truncates toward zero. -/

/-- The progress-bar kind (`EMPTY` / `INDETERMINATE` / `DETERMINATE`). -/
inductive ProgType where
  | empty
  | indeterminate
  | determinate
deriving DecidableEq

/-- The progress fields of `ScreenRecoveryUI` read by `SetProgress`. -/
structure ProgSt where
  progressBarType : ProgType
  progressScopeStart : ℚ
  progressScopeSize : ℚ
  progress : ℚ
deriving DecidableEq

/-- The C cast `(int)` on a rational: truncation toward zero. -/
def truncQ (x : ℚ) : ℤ :=
  if 0 ≤ x then ⌊x⌋ else ⌈x⌉

/-- The clamp of `SetProgress` (lines 684-685): two sequential ifs. -/
def clampQ (f : ℚ) : ℚ :=
  let f1 := if f < 0 then 0 else f
  if f1 > 1 then 1 else f1

/-- `ScreenRecoveryUI::SetProgress(fraction)` (screen_ui.cpp lines 682-696):
clamp to [0,1]; only a determinate bar with a strictly larger fraction whose
integer pixel position `(int)(fraction * width * progressScopeSize)` moved
updates the stored progress and requests a redraw (the returned flag). -/
def SetProgress (width : ℤ) (st : ProgSt) (fraction : ℚ) : ProgSt × Bool :=
  let f := clampQ fraction
  if st.progressBarType = ProgType.determinate ∧ f > st.progress then
    let scale : ℚ := (width : ℚ) * st.progressScopeSize
    if truncQ (st.progress * scale) ≠ truncQ (f * scale) then
      ({ st with progress := f }, true)
    else (st, false)
  else (st, false)

/-- The C6 counterexample state: a determinate bar at fraction 9/100 with
scope size 1. -/
def progC6 : ProgSt := ⟨ProgType.determinate, 0, 1, 9 / 100⟩

/-- C6 counterexample: on a bar of width 10, raising the fraction from 9/100
to 11/100 is an increase of 1/5 of a pixel — smaller than one pixel of bar
width scaled by the scope size — yet it crosses an integer pixel boundary, so
`SetProgress` updates the state and requests a redraw, contradicting the
claim that any sub-pixel increase updates nothing. -/
theorem c6_counterexample :
    (clampQ (11 / 100) - progC6.progress)
        * ((10 : ℤ) * progC6.progressScopeSize) < 1 ∧
    SetProgress 10 progC6 (11 / 100) ≠ (progC6, false) := by
  refine ⟨by norm_num [clampQ, progC6], ?_⟩
  have hrun : SetProgress 10 progC6 (11 / 100)
      = ({ progC6 with progress := 11 / 100 }, true) := by
    simp only [SetProgress, clampQ, truncQ, progC6]
    norm_num
  rw [hrun]
  intro h
  exact Bool.noConfusion (congrArg Prod.snd h)

/-- C6 (amended): while the bar is determinate the stored fraction never
decreases — neither across one `SetProgress` call nor across any sequence of
calls; a call whose clamped fraction is at or below the current value leaves
the state unchanged and requests no redraw; the argument is clamped to [0,1]
before comparison; and a call whose clamped fraction leaves the integer pixel
position (truncated `fraction × width × scope size`) unchanged updates
nothing and requests no redraw. -/
theorem c6_progress_monotonic :
    (∀ (w : ℤ) (st : ProgSt) (f : ℚ),
      st.progress ≤ (SetProgress w st f).1.progress) ∧
    (∀ (w : ℤ) (st : ProgSt) (fs : List ℚ),
      st.progress
        ≤ (fs.foldl (fun s f => (SetProgress w s f).1) st).progress) ∧
    (∀ (w : ℤ) (st : ProgSt) (f : ℚ), clampQ f ≤ st.progress →
      SetProgress w st f = (st, false)) ∧
    (∀ (w : ℤ) (st : ProgSt) (f : ℚ),
      truncQ (st.progress * ((w : ℚ) * st.progressScopeSize))
        = truncQ (clampQ f * ((w : ℚ) * st.progressScopeSize)) →
      SetProgress w st f = (st, false)) ∧
    (∀ f : ℚ, 0 ≤ clampQ f ∧ clampQ f ≤ 1) := by
  have hmono : ∀ (w : ℤ) (st : ProgSt) (f : ℚ),
      st.progress ≤ (SetProgress w st f).1.progress := by
    intro w st f
    simp only [SetProgress]
    split
    next hc =>
      split
      · exact le_of_lt hc.2
      · exact le_refl _
    next => exact le_refl _
  refine ⟨hmono, ?_, ?_, ?_, ?_⟩
  · intro w st fs
    induction fs generalizing st with
    | nil => exact le_refl _
    | cons f fs ih =>
      exact le_trans (hmono w st f) (ih ((SetProgress w st f).1))
  · intro w st f hle
    rw [SetProgress]
    rw [if_neg]
    intro hc
    exact absurd hc.2 (not_lt.mpr hle)
  · intro w st f heq
    rw [SetProgress]
    split
    · rw [if_neg]
      intro hne
      exact hne heq
    · rfl
  · intro f
    simp only [clampQ]
    by_cases h1 : f < 0
    · simp only [if_pos h1]
      norm_num
    · simp only [if_neg h1]
      by_cases h2 : f > 1
      · simp only [if_pos h2]
        norm_num
      · simp only [if_neg h2]
        exact ⟨le_of_not_lt h1, le_of_not_lt h2⟩

/-- C6 witness: a below-current call on the concrete determinate bar is a
no-op, via the amended theorem. -/
theorem c6_progress_monotonic_witness :
    (clampQ (5 / 100) ≤ progC6.progress) ∧
    SetProgress 10 progC6 (5 / 100) = (progC6, false) :=
  ⟨by norm_num [clampQ, progC6],
   c6_progress_monotonic.2.2.1 10 progC6 (5 / 100)
     (by norm_num [clampQ, progC6])⟩

/-! ### Circular text log (`ScreenRecoveryUI::PrintV`, screen_ui.cpp lines
705-728)

Each row of `text_` is a NUL-terminated char array of `log_text_cols_ + 1`
bytes; we model a row by its logical content (the characters before the
terminator), so writing the terminator at column `c` truncates the row to its
first `c` characters, and writing a character at the cursor column appends it
after the characters written so far.  `Init` (lines 569-570) starts with
`text_col_ = text_row_ = 0` and `text_top_ = 1`. -/

/-- The text-log fields of `ScreenRecoveryUI` touched by `PrintV`:
`log_text_rows_`, `log_text_cols_`, `text_`, `text_col_`, `text_row_`,
`text_top_`. -/
structure TextSt where
  rows : Nat
  cols : Nat
  text : List (List Char)
  text_col : Nat
  text_row : Nat
  text_top : Nat
deriving DecidableEq

/-- `text_[text_row_][text_col_] = '\0'` (lines 717 and 724): truncate the
cursor row at the cursor column. -/
def putNul (st : TextSt) : TextSt :=
  { st with
    text := st.text.set st.text_row
      ((st.text.getD st.text_row []).take st.text_col) }

/-- `text_[text_row_][text_col_++] = *ptr` (line 722): store the character at
the cursor column and advance the column. -/
def putChar (st : TextSt) (c : Char) : TextSt :=
  { st with
    text := st.text.set st.text_row
      ((st.text.getD st.text_row []).take st.text_col ++ [c]),
    text_col := st.text_col + 1 }

/-- Lines 717-720: terminate the cursor row, reset the column, advance the
cursor row modulo `log_text_rows_`, and if it has caught up with the top
pointer push the top pointer one row further (evicting the oldest row). -/
def wrapRow (st : TextSt) : TextSt :=
  let s := { putNul st with
             text_col := 0, text_row := (st.text_row + 1) % st.rows }
  if s.text_row = s.text_top then
    { s with text_top := (s.text_top + 1) % s.rows }
  else s

/-- The body of the character loop of `PrintV` (lines 715-722): wrap on a
newline or on a full row, then store every non-newline character. -/
def printChar (st : TextSt) (c : Char) : TextSt :=
  let st1 := if c = '\n' ∨ st.text_col ≥ st.cols then wrapRow st else st
  if c ≠ '\n' then putChar st1 c else st1

/-- `ScreenRecoveryUI::PrintV` restricted to the text-log update (lines
714-725): under the `log_text_rows_ > 0 && log_text_cols_ > 0` guard, run the
character loop over the formatted string and terminate the final row. -/
def PrintV (st : TextSt) (str : String) : TextSt :=
  if 0 < st.rows ∧ 0 < st.cols then putNul (str.data.foldl printChar st)
  else st

/-- The state set up by `Init`/`ClearText` (screen_ui.cpp lines 569-570,
758-762): cursor at the origin, top pointer at row 1, all rows empty. -/
def freshText (R C : Nat) : TextSt :=
  ⟨R, C, List.replicate R [], 0, 0, 1⟩

/-- `k` single-character lines printed from the fresh state: line `i` is the
two-character string `cs i` followed by a newline. -/
def iterLines (R C : Nat) (cs : Nat → Char) (k : Nat) : TextSt :=
  (List.range k).foldl (fun s i => PrintV s (String.mk [cs i, '\n']))
    (freshText R C)

/-- The ring-buffer well-formedness invariant of the text log: both row
indices in `[0, rows)`, the column within `[0, cols]`, and one stored row per
screen row. -/
def validText (st : TextSt) : Prop :=
  st.text_row < st.rows ∧ st.text_top < st.rows ∧ st.text_col ≤ st.cols ∧
  st.text.length = st.rows

instance (st : TextSt) : Decidable (validText st) := by
  unfold validText
  infer_instance

theorem getD_set_self {α : Type} (l : List α) (i : Nat) (a d : α)
    (h : i < l.length) : (l.set i a).getD i d = a := by
  induction l generalizing i with
  | nil => simp at h
  | cons x xs ih =>
    cases i with
    | zero => rfl
    | succ n => exact ih n (by simpa using h)

theorem getD_set_ne {α : Type} (l : List α) (i j : Nat) (a d : α)
    (h : i ≠ j) : (l.set i a).getD j d = l.getD j d := by
  induction l generalizing i j with
  | nil => rfl
  | cons x xs ih =>
    cases i with
    | zero =>
      cases j with
      | zero => exact absurd rfl h
      | succ m => rfl
    | succ n =>
      cases j with
      | zero => rfl
      | succ m => exact ih n m (fun hh => h (by rw [hh]))

theorem getD_replicate {α : Type} (n i : Nat) (a d : α) (h : i < n) :
    (List.replicate n a).getD i d = a := by
  induction n generalizing i with
  | zero => omega
  | succ m ih =>
    cases i with
    | zero => rfl
    | succ j => exact ih j (by omega)

/-- For a ring of at least two rows, advancing an index by one always moves
it to a different row. -/
theorem succ_mod_ne {R k : Nat} (hR : 2 ≤ R) : (k + 1) % R ≠ k % R := by
  have h1 : (k + 1) % R = (k % R + 1) % R := by
    rw [Nat.add_mod, Nat.mod_eq_of_lt (show (1 : Nat) < R by omega)]
  by_cases hc : k % R + 1 < R
  · rw [h1, Nat.mod_eq_of_lt hc]
    omega
  · have hlt : k % R < R := Nat.mod_lt _ (by omega)
    have he : k % R + 1 = R := by omega
    rw [h1, he, Nat.mod_self]
    omega

theorem printChar_newline (st : TextSt) : printChar st '\n' = wrapRow st := by
  simp [printChar]

theorem printChar_plain (st : TextSt) (c : Char) (hc : c ≠ '\n')
    (hcol : st.text_col < st.cols) : printChar st c = putChar st c := by
  simp only [printChar]
  rw [if_pos hc, if_neg]
  rintro (h | h)
  · exact hc h
  · exact absurd hcol (not_lt.mpr h)

theorem printChar_wrap (st : TextSt) (c : Char) (hc : c ≠ '\n')
    (hcol : st.cols ≤ st.text_col) :
    printChar st c = putChar (wrapRow st) c := by
  simp only [printChar]
  rw [if_pos hc, if_pos (Or.inr hcol)]

theorem wrapRow_hit (st : TextSt)
    (htop : (st.text_row + 1) % st.rows = st.text_top) :
    wrapRow st
      = { st with
          text := st.text.set st.text_row
            ((st.text.getD st.text_row []).take st.text_col),
          text_col := 0, text_row := (st.text_row + 1) % st.rows,
          text_top := (st.text_top + 1) % st.rows } := by
  simp only [wrapRow, putNul]
  rw [if_pos htop]

theorem putNul_valid (st : TextSt) (h : validText st) :
    validText (putNul st) := by
  obtain ⟨h1, h2, h3, h4⟩ := h
  exact ⟨h1, h2, h3, by simpa [putNul] using h4⟩

theorem wrapRow_valid (st : TextSt) (h : validText st) :
    validText (wrapRow st) := by
  obtain ⟨h1, h2, h3, h4⟩ := h
  have h0 : 0 < st.rows := Nat.lt_of_le_of_lt (Nat.zero_le _) h1
  simp only [wrapRow, putNul]
  split
  · exact ⟨Nat.mod_lt _ h0, Nat.mod_lt _ h0, Nat.zero_le _, by simpa using h4⟩
  · exact ⟨Nat.mod_lt _ h0, h2, Nat.zero_le _, by simpa using h4⟩

theorem putChar_valid (st : TextSt) (c : Char) (h : validText st)
    (hcol : st.text_col < st.cols) : validText (putChar st c) := by
  obtain ⟨h1, h2, h3, h4⟩ := h
  exact ⟨h1, h2, hcol, by simpa [putChar] using h4⟩

theorem wrapRow_cols (st : TextSt) : (wrapRow st).cols = st.cols := by
  simp only [wrapRow, putNul]
  split <;> rfl

theorem wrapRow_col (st : TextSt) : (wrapRow st).text_col = 0 := by
  simp only [wrapRow, putNul]
  split <;> rfl

theorem printChar_valid (st : TextSt) (c : Char) (hcols : 0 < st.cols)
    (h : validText st) : validText (printChar st c) := by
  by_cases hn : c = '\n'
  · subst hn
    rw [printChar_newline]
    exact wrapRow_valid st h
  · by_cases hcol : st.text_col < st.cols
    · rw [printChar_plain st c hn hcol]
      exact putChar_valid st c h hcol
    · rw [printChar_wrap st c hn (le_of_not_lt hcol)]
      exact putChar_valid _ c (wrapRow_valid st h)
        (by rw [wrapRow_col, wrapRow_cols]; exact hcols)

theorem printChar_cols (st : TextSt) (c : Char) :
    (printChar st c).cols = st.cols := by
  simp only [printChar, putChar]
  split
  · split
    · exact wrapRow_cols st
    · rfl
  · split
    · exact wrapRow_cols st
    · rfl

theorem foldl_printChar_valid (l : List Char) (st : TextSt)
    (hcols : 0 < st.cols) (h : validText st) :
    validText (l.foldl printChar st) := by
  induction l generalizing st with
  | nil => exact h
  | cons c cs ih =>
    exact ih (printChar st c)
      (by rw [printChar_cols]; exact hcols) (printChar_valid st c hcols h)

theorem PrintV_valid (st : TextSt) (s : String) (h : validText st) :
    validText (PrintV st s) := by
  by_cases hg : 0 < st.rows ∧ 0 < st.cols
  · rw [PrintV, if_pos hg]
    exact putNul_valid _ (foldl_printChar_valid s.data st hg.2 h)
  · rw [PrintV, if_neg hg]
    exact h

/-- One printed line `c` + `'\n'` from a column-0 cursor whose top pointer is
one row ahead: the line lands in the cursor row, the cursor advances into the
top row which is cleared, and the top pointer advances by exactly one. -/
theorem printLine (R C : Nat) (h0 : 0 < R) (h1 : 0 < C) (c : Char)
    (hc : c ≠ '\n') (t : List (List Char)) (r : Nat) (hr : r < t.length) :
    PrintV ⟨R, C, t, 0, r, (r + 1) % R⟩ (String.mk [c, '\n'])
      = ⟨R, C, (t.set r [c]).set ((r + 1) % R) [], 0, (r + 1) % R,
         ((r + 1) % R + 1) % R⟩ := by
  rw [PrintV, if_pos (⟨h0, h1⟩ : (0 : Nat) < R ∧ 0 < C)]
  show putNul (printChar (printChar ⟨R, C, t, 0, r, (r + 1) % R⟩ c) '\n') = _
  rw [printChar_plain _ c hc (show (0 : Nat) < C from h1)]
  have hput : putChar ⟨R, C, t, 0, r, (r + 1) % R⟩ c
      = ⟨R, C, t.set r [c], 1, r, (r + 1) % R⟩ := by
    simp [putChar]
  rw [hput, printChar_newline, wrapRow_hit _ rfl]
  have hg : (t.set r [c]).getD r [] = [c] := getD_set_self t r [c] [] hr
  have hg2 : (t.set r [c])[r]?.getD [] = [c] := by simpa using hg
  simp [putNul, List.set_set]
  rw [hg2]
  rfl

theorem iterLines_succ (R C : Nat) (cs : Nat → Char) (k : Nat) :
    iterLines R C cs (k + 1)
      = PrintV (iterLines R C cs k) (String.mk [cs k, '\n']) := by
  simp [iterLines, List.range_succ]

/-- Full characterization of the state after `k` single-character lines:
cursor at row `k % R` column 0, top pointer at `(k + 1) % R`, the cursor row
cleared, and the last line still stored in the previous row. -/
theorem iterLines_state (R C : Nat) (cs : Nat → Char) (h2 : 2 ≤ R)
    (h1 : 1 ≤ C) (hcs : ∀ i, cs i ≠ '\n') (k : Nat) :
    ∃ t : List (List Char),
      iterLines R C cs k = ⟨R, C, t, 0, k % R, (k + 1) % R⟩ ∧
      t.length = R ∧ t.getD (k % R) [] = [] ∧
      (1 ≤ k → t.getD ((k - 1) % R) [] = [cs (k - 1)]) := by
  induction k with
  | zero =>
    refine ⟨List.replicate R [], ?_, by simp, ?_, by omega⟩
    · simp [iterLines, freshText, Nat.zero_mod,
        Nat.mod_eq_of_lt (show 1 < R by omega)]
    · rw [Nat.zero_mod]
      exact getD_replicate R 0 [] [] (by omega)
  | succ k ih =>
    obtain ⟨t, hst, hlen, hcur, hprev⟩ := ih
    have hr : k % R < t.length := by
      rw [hlen]
      exact Nat.mod_lt _ (by omega)
    have hline := printLine R C (by omega) (by omega) (cs k) (hcs k) t
      (k % R) hr
    have emod : (k % R + 1) % R = (k + 1) % R := by simp [Nat.mod_add_mod]
    have emod2 : ((k + 1) % R + 1) % R = (k + 1 + 1) % R := by
      simp [Nat.mod_add_mod]
    rw [emod, emod2] at hline
    refine ⟨(t.set (k % R) [cs k]).set ((k + 1) % R) [], ?_, by simp [hlen],
      ?_, ?_⟩
    · rw [iterLines_succ, hst, hline]
    · exact getD_set_self _ _ [] []
        (by simp [hlen]; exact Nat.mod_lt _ (by omega))
    · intro _
      have e3 : k + 1 - 1 = k := by omega
      rw [e3, getD_set_ne _ _ _ _ _ (succ_mod_ne h2),
        getD_set_self t _ _ _ hr]

/-- C7: the text log is a fixed-size ring buffer.  (1) `PrintV` preserves the
well-formedness invariant: for every print call on every well-formed state the
cursor row and the top pointer stay in `[0, log_text_rows_)`, the column stays
within the row width, and the buffer keeps one stored row per screen row.
(2) For every sequence of `k` printed lines from the fresh state — including
every `k` larger than `log_text_rows_ = R` — the cursor sits at row `k % R`
column 0, the top pointer has advanced by exactly one per line to
`(k + 1) % R`, the cursor row is distinct from the top pointer, each new line
overwrote the row `k % R` (the oldest row, now cleared for reuse), and the most
recently printed line is still stored in the previous row. -/
theorem c7_ring_buffer :
    (∀ (st : TextSt) (s : String), validText st → validText (PrintV st s)) ∧
    (∀ (R C : Nat) (cs : Nat → Char) (k : Nat), 2 ≤ R → 1 ≤ C →
      (∀ i, cs i ≠ '\n') →
      (iterLines R C cs k).text_row = k % R ∧
      (iterLines R C cs k).text_top = (k + 1) % R ∧
      (iterLines R C cs k).text_col = 0 ∧
      (iterLines R C cs k).text_row ≠ (iterLines R C cs k).text_top ∧
      (iterLines R C cs k).text.getD (k % R) [] = [] ∧
      (1 ≤ k → (iterLines R C cs k).text.getD ((k - 1) % R) []
        = [cs (k - 1)])) := by
  refine ⟨PrintV_valid, ?_⟩
  intro R C cs k h2 h1 hcs
  obtain ⟨t, hst, hlen, hcur, hprev⟩ := iterLines_state R C cs h2 h1 hcs k
  rw [hst]
  exact ⟨rfl, rfl, rfl, Ne.symm (succ_mod_ne h2), hcur, hprev⟩

/-- C7 witness: the invariant survives printing "hi\n" on a fresh 3x2 log,
and four single-character lines on a 3-row log land as characterized, via the
claim theorem at concrete inputs. -/
theorem c7_ring_buffer_witness :
    validText (PrintV (freshText 3 2) (String.mk ['h', 'i', '\n'])) ∧
    ((iterLines 3 2 (fun _ => 'a') 4).text_row = 4 % 3 ∧
     (iterLines 3 2 (fun _ => 'a') 4).text_top = (4 + 1) % 3 ∧
     (iterLines 3 2 (fun _ => 'a') 4).text_col = 0 ∧
     (iterLines 3 2 (fun _ => 'a') 4).text_row
        ≠ (iterLines 3 2 (fun _ => 'a') 4).text_top ∧
     (iterLines 3 2 (fun _ => 'a') 4).text.getD (4 % 3) [] = [] ∧
     (1 ≤ 4 → (iterLines 3 2 (fun _ => 'a') 4).text.getD ((4 - 1) % 3) []
        = [(fun _ => 'a') (4 - 1)])) :=
  ⟨c7_ring_buffer.1 (freshText 3 2) (String.mk ['h', 'i', '\n']) (by decide),
   c7_ring_buffer.2 3 2 (fun _ => 'a') 4 (by decide) (by decide)
     (fun _ => (by decide : ('a' : Char) ≠ '\n'))⟩
